import Mathlib

/-!
Verification development for the Gwent_mobile rules engine
(gwent-python: gwent/game/board.py, round.py, player.py, match.py,
gwent/game/effects.py, gwent/ai/hybrid_ai.py, gwent/cards/base_card.py).

The Python data model and operations are shallowly embedded as executable
Lean definitions.  Cards are modelled as immutable values carrying the
fields that influence behaviour (faction, tags and the flavour entries of
the meta dict never affect any modelled operation and are omitted; the
behaviour-relevant meta entries group, avenged and transformed are fields).
Python lists become Lean lists, dictionaries keyed by player/row become
functions out of the finite player/row types, exceptions become an
explicit error result paired with the state as mutated up to the raise
point (Python exceptions do not roll back earlier mutations).
-/

namespace Gwent

/-- The two players of a match (board.py constructs `Board(["P1","P2"])`;
the spec fixes an ordered pair of player ids). -/
inductive Pid where
  | P1
  | P2
deriving DecidableEq, Repr, Fintype

/-- The opponent of a player (Board.get_opponent: first player with a
different id; with two players this is the other one). -/
def Pid.opp : Pid → Pid
  | .P1 => .P2
  | .P2 => .P1

/-- The three combat rows a board actually has (keys of Board.rows[p]). -/
inductive BRow where
  | melee
  | ranged
  | siege
deriving DecidableEq, Repr, Fintype

/-- The row field of a card (base_card.Row), which additionally has ALL. -/
inductive CRow where
  | melee
  | ranged
  | siege
  | all
deriving DecidableEq, Repr

/-- Embed a board row into the card-row enum. -/
def BRow.toC : BRow → CRow
  | .melee => .melee
  | .ranged => .ranged
  | .siege => .siege

/-- Card types (base_card.CardType). -/
inductive CardType where
  | unit
  | weather
  | special
  | leader
deriving DecidableEq, Repr

/-- Card abilities (base_card.Ability). -/
inductive Ability where
  | tight_bond
  | morale_boost
  | medic
  | spy
  | decoy
  | scorch
  | horn
  | weather
  | hero
  | muster
  | agile
  | avenger
  | berserker
  | mardroeme
  | none_
deriving DecidableEq, Repr

/-- Card value (base_card.Card / unit_card.UnitCard).  combat_rows is the
UnitCard field; on plain Cards the attribute is absent, which Python code
reads via getattr(card, "combat_rows", None) — both the absent attribute
and the empty list are falsy, so the empty list models both.  group,
avenged and transformed model the behaviour-relevant meta entries;
avenged/transformed are falsy (false) when the key is missing. -/
structure Card where
  id : String
  name : String
  type : CardType
  row : CRow
  power : Int
  hero : Bool
  abilities : List Ability
  combat_rows : List CRow
  group : Option String
  avenged : Bool
  transformed : Bool
deriving DecidableEq, Repr

/-- Card.is_unit. -/
def Card.is_unit (c : Card) : Bool := c.type = CardType.unit

/-- Card.is_hero: the hero flag or the Hero ability. -/
def Card.is_hero (c : Card) : Bool := c.hero || Ability.hero ∈ c.abilities

/-- Card.base_power. -/
def Card.base_power (c : Card) : Int := c.power

/-- One combat row of one player (board.py RowState). -/
structure RowState where
  row : BRow
  cards : List Card
  weather_active : Bool
  horn_active : Bool
deriving DecidableEq, Repr

/-- RowState.add: append the card; a card with the Horn ability switches
horn_active on. -/
def RowState.add (rs : RowState) (c : Card) : RowState :=
  { rs with
    cards := rs.cards ++ [c]
    horn_active := rs.horn_active || Ability.horn ∈ c.abilities }

/-- RowState.remove: list.remove removes the first equal element and
returns whether it was found (the Python method returns True on success,
False when a ValueError was caught). -/
def RowState.remove (rs : RowState) (c : Card) : Bool × RowState :=
  (c ∈ rs.cards, { rs with cards := rs.cards.erase c })

/-- RowState._bond_groups, read at one name: the number of cards on the
row that have TightBond and carry the given name.  The source builds a
dict of these counts. -/
def bondCount (cards : List Card) (name : String) : Nat :=
  (cards.filter (fun c => Ability.tight_bond ∈ c.abilities ∧ c.name = name)).length

/-- groups.get(name, 1) in RowState.effective_strength: the dict lookup
falls back to 1 when no TightBond card of that name is on the row. -/
def bondFactor (cards : List Card) (name : String) : Nat :=
  if bondCount cards name = 0 then 1 else bondCount cards name

/-- The number of MoraleBoost cards on the row (len(morale_sources)). -/
def moraleCount (cards : List Card) : Nat :=
  (cards.filter (fun c => Ability.morale_boost ∈ c.abilities)).length

/-- The contribution one card adds to the running total inside the loop of
RowState.effective_strength (board.py lines 56-67), with the row's card
list, weather flag and horn flag as context. -/
def contrib (cards : List Card) (weather horn : Bool) (c : Card) : Int :=
  let base : Int :=
    if weather ∧ ¬ c.is_hero then (if c.is_unit then 1 else 0) else c.base_power
  let base :=
    if Ability.tight_bond ∈ c.abilities then base * (bondFactor cards c.name : Int) else base
  let base :=
    if moraleCount cards ≠ 0 ∧ Ability.morale_boost ∉ c.abilities ∧ c.is_unit
    then base + (moraleCount cards : Int) else base
  if horn ∧ c.is_unit ∧ ¬ c.is_hero then base * 2 else base

/-- RowState.effective_strength (board.py lines 49-68): 0 on the empty
row, otherwise the loop summing each card's modified contribution. -/
def RowState.effective_strength (rs : RowState) : Int :=
  if rs.cards = [] then 0
  else rs.cards.foldl
    (fun total c => total + contrib rs.cards rs.weather_active rs.horn_active c) 0

/-- RowState.preview_added_strength: strength gain from appending a card
(the source appends, measures, then pops — a net no-op on the row). -/
def RowState.preview_added_strength (rs : RowState) (c : Card) : Int :=
  { rs with cards := rs.cards ++ [c] }.effective_strength - rs.effective_strength

/-- Board (board.py): per-player rows, the global weather map, the simple
deck stores used by Muster, and the per-player graveyards. -/
structure Board where
  rows : Pid → BRow → RowState
  active_weather : BRow → Bool
  decks : Pid → List Card
  graveyards : Pid → List Card

/-- A fresh board as built by Board.__init__. -/
def Board.init : Board where
  rows := fun _ r => { row := r, cards := [], weather_active := false, horn_active := false }
  active_weather := fun _ => false
  decks := fun _ => []
  graveyards := fun _ => []

/-- Replace one row state. -/
def Board.setRow (b : Board) (p : Pid) (r : BRow) (rs : RowState) : Board :=
  { b with rows := fun p' r' => if p' = p ∧ r' = r then rs else b.rows p' r' }

/-- Append a card to a player's graveyard (graveyards[player].append(card)). -/
def Board.pushGrave (b : Board) (p : Pid) (c : Card) : Board :=
  { b with graveyards := fun p' => if p' = p then b.graveyards p ++ [c] else b.graveyards p' }

/-- Replace a player's graveyard list. -/
def Board.setGrave (b : Board) (p : Pid) (l : List Card) : Board :=
  { b with graveyards := fun p' => if p' = p then l else b.graveyards p' }

/-- Replace a player's deck store. -/
def Board.setDeck (b : Board) (p : Pid) (l : List Card) : Board :=
  { b with decks := fun p' => if p' = p then l else b.decks p' }

/-- Board._sync_weather_flags: mirror active_weather into every row. -/
def Board.sync (b : Board) : Board :=
  { b with rows := fun p r => { b.rows p r with weather_active := b.active_weather r } }

/-- The row list a weather-card name affects (Board._apply_weather's
mapping, after name.lower()). -/
def weatherRows (n : String) : List BRow :=
  if n = "biting frost" then [BRow.melee]
  else if n = "impenetrable fog" then [BRow.ranged]
  else if n = "torrential rain" then [BRow.siege]
  else if n = "skellige storm" then [BRow.melee, BRow.ranged, BRow.siege]
  else []

/-- Board._apply_weather: Clear Weather resets all rows, any other name
switches its mapped rows on; unknown names map to no rows.  Ends with a
weather-flag sync. -/
def Board.applyWeather (b : Board) (card : Card) : Board :=
  let n := card.name.toLower
  if n = "clear weather" then
    Board.sync { b with active_weather := fun _ => false }
  else
    Board.sync { b with active_weather := fun r => if r ∈ weatherRows n then true else b.active_weather r }

/-- Errors: each Python exception kind raised by the modelled code. -/
inductive Err where
  | valueError (msg : String)
  | keyError
  | attributeError (msg : String)
  | runtimeError (msg : String)
deriving DecidableEq, Repr

instance exceptDecEq {ε α : Type} [DecidableEq ε] [DecidableEq α] :
    DecidableEq (Except ε α) := fun a b =>
  match a, b with
  | .error e, .error f =>
    if h : e = f then isTrue (by rw [h]) else isFalse (by intro hh; cases hh; exact h rfl)
  | .error _, .ok _ => isFalse (by intro hh; cases hh)
  | .ok _, .error _ => isFalse (by intro hh; cases hh)
  | .ok u, .ok v =>
    if h : u = v then isTrue (by rw [h]) else isFalse (by intro hh; cases hh; exact h rfl)

/-- The event record returned by Board.play_card. -/
structure Events where
  decoy_returned : Option Card
  resurrected : Option Card
  spy_played : Option Card
  transformed : Option Card
deriving DecidableEq, Repr

/-- The freshly initialised event record. -/
def Events.init : Events :=
  { decoy_returned := none, resurrected := none, spy_played := none, transformed := none }

/-- Look a CRow up among the board rows of a player; CRow.all is not a key
of the rows dict, so indexing with it raises KeyError. -/
def toBRow : CRow → Except Err BRow
  | .melee => .ok BRow.melee
  | .ranged => .ok BRow.ranged
  | .siege => .ok BRow.siege
  | .all => .error Err.keyError

/-- chosen_row in self.rows[player]: membership test of the rows dict. -/
def CRow.isBattle : CRow → Bool
  | .all => false
  | _ => true

/-- Convert a card row to a board row, with a fallback used when the card
row is ALL.  Models the pattern "chosen_row if chosen_row in
self.rows[player] else fallback". -/
def CRow.toBOr (c : CRow) (d : BRow) : BRow :=
  match c with
  | .melee => .melee
  | .ranged => .ranged
  | .siege => .siege
  | .all => d

/-- The scan order of Board._apply_scorch: players in list order, rows in
the insertion order of the rows dict. -/
def scorchPairs : List (Pid × BRow) :=
  [(Pid.P1, BRow.melee), (Pid.P1, BRow.ranged), (Pid.P1, BRow.siege),
   (Pid.P2, BRow.melee), (Pid.P2, BRow.ranged), (Pid.P2, BRow.siege)]

/-- One update of the (highest, victims) accumulator in
Board._apply_scorch (board.py lines 259-265); victims and locations are
appended in lockstep and modelled as one list of triples. -/
def scanStep (acc : Int × List (Card × Pid × BRow)) (value : Int) (c : Card) (p : Pid)
    (r : BRow) : Int × List (Card × Pid × BRow) :=
  if value > acc.1 then (value, [(c, p, r)])
  else if value = acc.1 ∧ value > 0 then (acc.1, acc.2 ++ [(c, p, r)])
  else acc

/-- The victim scan of one row in Board._apply_scorch.  The Python loop
iterates over rs.cards by index while mutating the list: a candidate card
is removed (first equal occurrence), the shrunken row is measured, and the
card is reinserted at index 0.  Under that mutation the element at the
iteration index is always the head of the original suffix, so the loop is
the structural recursion below, where the list is kept as a processed part
paired with the untouched suffix; after processing a candidate c the
processed part becomes c followed by (processed ++ [c]) minus its first
occurrence of c (the reinsertion at index 0 combined with the removal,
which may have hit an equal earlier copy). -/
def scorchScanCards (p : Pid) (r : BRow) (w hn : Bool) :
    List Card → List Card → Int × List (Card × Pid × BRow) →
    (Int × List (Card × Pid × BRow)) × List Card
  | processed, [], acc => (acc, processed)
  | processed, c :: rest, acc =>
    if c.is_unit ∧ ¬ c.is_hero then
      let cur := processed ++ c :: rest
      let rsCur : RowState := { row := r, cards := cur, weather_active := w, horn_active := hn }
      let value := rsCur.effective_strength -
        { rsCur with cards := cur.erase c }.effective_strength
      scorchScanCards p r w hn (c :: (processed ++ [c]).erase c) rest (scanStep acc value c p r)
    else
      scorchScanCards p r w hn (processed ++ [c]) rest acc

/-- One row of the victim scan: run the row's scan and write the
(reordered) card list back. -/
def scanRowFoldStep (st : (Int × List (Card × Pid × BRow)) × Board) (pr : Pid × BRow) :
    (Int × List (Card × Pid × BRow)) × Board :=
  match st, pr with
  | (acc, bb), (p, r) =>
    let rs := bb.rows p r
    let (acc', cards') := scorchScanCards p r rs.weather_active rs.horn_active [] rs.cards acc
    (acc', bb.setRow p r { rs with cards := cards' })

/-- The full victim scan of Board._apply_scorch over both players' rows,
returning the accumulator and the board with each row's (reordered) card
list written back. -/
def Board.applyScorchScan (b : Board) : (Int × List (Card × Pid × BRow)) × Board :=
  scorchPairs.foldl scanRowFoldStep ((0, []), b)

/-- Board._on_unit_removed: push the card to the owner's graveyard; an
unavenged Avenger is marked avenged (an in-place mutation of the object
just appended), removed from the graveyard again and returned to the same
row, followed by a weather sync. -/
def Board.onUnitRemoved (b : Board) (p : Pid) (c : Card) (r : BRow) : Board :=
  if Ability.avenger ∈ c.abilities ∧ c.avenged = false then
    let c' := { c with avenged := true }
    let b1 := b.setGrave p ((b.graveyards p ++ [c']).erase c')
    (b1.setRow p r ((b1.rows p r).add c')).sync
  else
    b.pushGrave p c

/-- One removal of the victim loop at the end of Board._apply_scorch:
remove the victim from its recorded row and fire the on-death handler
when the removal found the card. -/
def removeStep (bb : Board) (t : Card × Pid × BRow) : Board :=
  match t with
  | (c, p, r) =>
    let rem := (bb.rows p r).remove c
    let bb1 := bb.setRow p r rem.2
    if rem.1 then bb1.onUnitRemoved p c r else bb1

/-- Board._apply_scorch (board.py lines 245-269): scan for the victims,
then run the removal loop over them. -/
def Board.applyScorch (b : Board) : Board :=
  let scan := b.applyScorchScan
  scan.1.2.foldl removeStep scan.2

/-- Board._best_row_for_unit: fold over the candidate rows with the
initial best being the first choice at gain -10^9 (so the first measured
row always replaces it); indexing the rows dict with a non-battle row
raises KeyError. -/
def Board.bestRowForUnit (b : Board) (p : Pid) (card : Card) : Except Err CRow :=
  let choices := if card.combat_rows = [] then [card.row] else card.combat_rows
  match choices with
  | [] => .ok card.row
  | c0 :: rest =>
    let step := fun (acc : Except Err (CRow × Int)) (r : CRow) =>
      match acc with
      | .error e => .error e
      | .ok (bestRow, bestGain) =>
        match toBRow r with
        | .error e => .error e
        | .ok br =>
          let gain := (b.rows p br).preview_added_strength card
          if gain > bestGain then .ok (r, gain) else .ok (bestRow, bestGain)
    match (c0 :: rest).foldl step (.ok (c0, -(10 : Int) ^ 9)) with
    | .error e => .error e
    | .ok x => .ok x.1

/-- Result of the non-recursive part of Board.play_card: the event record
or the raised exception, the board as mutated so far, and whether control
fell through to the Muster check at board.py line 196 (only the ordinary
placement path that raised no exception reaches it). -/
structure StemOut where
  res : Except Err Events
  board : Board
  fell : Bool

/-- The weather branch of Board.play_card (lines 99-102). -/
def stemWeather (b : Board) (player : Pid) (card : Card) : StemOut :=
  { res := .ok Events.init, board := (b.applyWeather card).pushGrave player card, fell := false }

/-- The Scorch-special branch of Board.play_card (lines 104-107). -/
def stemScorch (b : Board) (player : Pid) (card : Card) : StemOut :=
  { res := .ok Events.init, board := b.applyScorch.pushGrave player card, fell := false }

/-- The Decoy branch of Board.play_card (lines 109-120): find the first
of the player's rows (dict order melee, ranged, siege) holding the
target, remove the target there, and place the decoy on the chosen row
when it is a battle row, else on the target's row.  With no target the
branch raises; with a target on none of the rows it silently returns. -/
def stemDecoy (b : Board) (player : Pid) (card : Card) (chosen_row : CRow)
    (target_unit : Option Card) : StemOut :=
  match target_unit with
  | none => { res := .error (.valueError "Decoy requires target_unit"), board := b, fell := false }
  | some tu =>
    match [BRow.melee, BRow.ranged, BRow.siege].find? (fun r => tu ∈ (b.rows player r).cards) with
    | none => { res := .ok Events.init, board := b, fell := false }
    | some r =>
      let rs := b.rows player r
      let rs1 := (rs.remove tu).2
      let place_row := chosen_row.toBOr rs.row
      let b1 := b.setRow player r rs1
      let b2 := b1.setRow player place_row ((b1.rows player place_row).add card)
      { res := .ok { Events.init with decoy_returned := some tu }, board := b2, fell := false }

/-- The transformed card a Mardroeme play builds for a Berserker target
found on row r (board.py lines 130-142). -/
def transformedCard (tu : Card) (r : BRow) : Card :=
  { id := tu.id ++ ":t"
    name := tu.name ++ " (Transformed)"
    type := tu.type
    row := r.toC
    power := max tu.base_power 8
    hero := tu.hero
    abilities := tu.abilities.filter (fun a => a ≠ Ability.berserker)
    combat_rows := []
    group := tu.group
    avenged := tu.avenged
    transformed := true }

/-- The Mardroeme branch of Board.play_card (lines 122-148): replace a
Berserker target in place; the Mardroeme card always reaches the
graveyard and the branch ends with a weather sync. -/
def stemMardroeme (b : Board) (player : Pid) (card : Card) (target_unit : Option Card) :
    StemOut :=
  match target_unit with
  | none =>
    { res := .error (.valueError "Mardroeme requires target_unit (typically a Berserker)"),
      board := b, fell := false }
  | some tu =>
    let step : Events × Board :=
      match [BRow.melee, BRow.ranged, BRow.siege].find? (fun r => tu ∈ (b.rows player r).cards) with
      | none => (Events.init, b)
      | some r =>
        if Ability.berserker ∈ tu.abilities then
          let rs := b.rows player r
          let rs1 := (rs.remove tu).2
          let bb := b.setRow player r rs1
          ({ Events.init with transformed := some (transformedCard tu r) },
            bb.setRow player r ((bb.rows player r).add (transformedCard tu r)))
        else (Events.init, b)
    { res := .ok step.1, board := (step.2.pushGrave player card).sync, fell := false }

/-- The Spy branch of Board.play_card (lines 150-159): place the unit on
the opponent's chosen row, resolving an agile ALL row first. -/
def stemSpy (b : Board) (player : Pid) (card : Card) (chosen_row : CRow) : StemOut :=
  let opp := player.opp
  let chosenE : Except Err CRow :=
    if card.combat_rows ≠ [] ∧ chosen_row = CRow.all then b.bestRowForUnit opp card
    else .ok chosen_row
  match chosenE with
  | .error e => { res := .error e, board := b, fell := false }
  | .ok cr =>
    if cr.isBattle then
      let br := cr.toBOr BRow.melee
      let b1 := b.setRow opp br ((b.rows opp br).add card)
      { res := .ok { Events.init with spy_played := some card }, board := b1.sync, fell := false }
    else
      { res := .error (.valueError "Invalid row for opponent"), board := b, fell := false }

/-- The Horn-special branch of Board.play_card (lines 161-167). -/
def stemHorn (b : Board) (player : Pid) (card : Card) (chosen_row : CRow) : StemOut :=
  if chosen_row.isBattle then
    let br := chosen_row.toBOr BRow.melee
    let rs := b.rows player br
    let b1 := b.setRow player br { rs with horn_active := true }
    { res := .ok Events.init, board := b1.sync.pushGrave player card, fell := false }
  else
    { res := .error (.valueError "Invalid row for player"), board := b, fell := false }

/-- The ordinary/agile placement path of Board.play_card (lines 169-194)
with the post-placement Medic trigger; only this path reaches the Muster
check, and only when no exception was raised. -/
def stemUnit (b : Board) (player : Pid) (card : Card) (chosen_row : CRow) : StemOut :=
  let chosenE : Except Err CRow :=
    if card.combat_rows ≠ [] ∧ chosen_row = CRow.all then b.bestRowForUnit player card
    else .ok chosen_row
  match chosenE with
  | .error e => { res := .error e, board := b, fell := false }
  | .ok cr =>
    if cr.isBattle then
      let br := cr.toBOr BRow.melee
      let b1 := b.setRow player br ((b.rows player br).add card)
      let b2 := b1.sync
      if Ability.medic ∈ card.abilities ∧ card.is_unit then
        let gy := b2.graveyards player
        let best := gy.foldl
          (fun (acc : Int × Option Card) c =>
            if c.is_unit ∧ ¬ c.is_hero ∧ c.base_power > acc.1 then (c.base_power, some c)
            else acc)
          (-1, none)
        match best.2 with
        | none => { res := .ok Events.init, board := b2, fell := true }
        | some res =>
          let b3 := b2.setGrave player ((b2.graveyards player).erase res)
          let resRowE : Except Err CRow :=
            if res.combat_rows ≠ [] ∧ res.row = CRow.all then b3.bestRowForUnit player res
            else .ok res.row
          match resRowE with
          | .error e => { res := .error e, board := b3, fell := false }
          | .ok rr =>
            match toBRow rr with
            | .error e => { res := .error e, board := b3, fell := false }
            | .ok rbr =>
              let b4 := b3.setRow player rbr ((b3.rows player rbr).add res)
              { res := .ok { Events.init with resurrected := some res }, board := b4,
                fell := true }
      else
        { res := .ok Events.init, board := b2, fell := true }
    else
      { res := .error (.valueError "Invalid row for player"), board := b, fell := false }

/-- The ability dispatch of Board.play_card in source order, with
chosen_row already resolved as target_row or card.row. -/
def playCardStemCR (b : Board) (player : Pid) (card : Card) (chosen_row : CRow)
    (target_unit : Option Card) : StemOut :=
  if Ability.weather ∈ card.abilities then stemWeather b player card
  else if Ability.scorch ∈ card.abilities ∧ card.is_unit = false then stemScorch b player card
  else if Ability.decoy ∈ card.abilities ∧ card.is_unit = false then
    stemDecoy b player card chosen_row target_unit
  else if Ability.mardroeme ∈ card.abilities ∧ card.is_unit = false then
    stemMardroeme b player card target_unit
  else if Ability.spy ∈ card.abilities ∧ card.is_unit then stemSpy b player card chosen_row
  else if Ability.horn ∈ card.abilities ∧ card.is_unit = false then
    stemHorn b player card chosen_row
  else stemUnit b player card chosen_row

/-- Board.play_card without the Muster block (board.py lines 95-194):
chosen_row = target_row or card.row, then the ability dispatch. -/
def Board.playCardStem (b : Board) (player : Pid) (card : Card) (target_row : Option CRow)
    (target_unit : Option Card) : StemOut :=
  playCardStemCR b player card (target_row.getD card.row) target_unit

/-- group = card.meta.get("group") or card.name: the group tag with the
name as fallback (Python or treats the empty string and a missing key
alike). -/
def pyGroup (card : Card) : String :=
  match card.group with
  | some g => if g = "" then card.name else g
  | none => card.name

/-- The Muster deck filter: units whose group tag equals the played
card's group (a deck card without a group tag never matches). -/
def musterMatches (g : String) (c : Card) : Bool :=
  c.group = some g && c.is_unit

/-- Board.play_card including the Muster block, by remaining muster depth.
The source recursion (board.py line 206) always passes
suppress_muster=True, so a public play has muster depth 1 and every
nested play has depth 0; the depth argument makes that recursion
structural.  Matching deck units are removed from the deck first, then
each is played in order; an exception from a nested play propagates and
aborts the rest of the chain. -/
def Board.playCardAux : Nat → Board → Pid → Card → Option CRow → Option Card →
    Except Err Events × Board
  | 0, b, p, card, tr, tu =>
    let o := b.playCardStem p card tr tu
    (o.res, o.board)
  | d + 1, b, p, card, tr, tu =>
    let o := b.playCardStem p card tr tu
    if o.fell ∧ Ability.muster ∈ card.abilities then
      let g := pyGroup card
      let toPlay := (o.board.decks p).filter (musterMatches g)
      let b1 := o.board.setDeck p ((o.board.decks p).filter (fun c => !(musterMatches g c)))
      toPlay.foldl
        (fun acc c =>
          match acc with
          | (.error e, bb) => (.error e, bb)
          | (.ok ev, bb) =>
            match Board.playCardAux d bb p c none none with
            | (.error e, bb') => (.error e, bb')
            | (.ok _, bb') => (.ok ev, bb'))
        (o.res, b1)
    else
      (o.res, o.board)

/-- Board.play_card (board.py lines 95-207). -/
def Board.play_card (b : Board) (p : Pid) (card : Card) (target_row : Option CRow)
    (target_unit : Option Card) (suppress_muster : Bool) : Except Err Events × Board :=
  b.playCardAux (if suppress_muster then 0 else 1) p card target_row target_unit

/-- Board.row_strength. -/
def Board.row_strength (b : Board) (p : Pid) (r : BRow) : Int :=
  (b.rows p r).effective_strength

/-- Board.total_strength: melee + ranged + siege. -/
def Board.total_strength (b : Board) (p : Pid) : Int :=
  b.row_strength p BRow.melee + b.row_strength p BRow.ranged + b.row_strength p BRow.siege

/-- Board.cleanup_after_round: every row's cards move to the owner's
graveyard and the row flags reset; active_weather is left as is (it is
cleared by the next start_round). -/
def Board.cleanupAfterRound (b : Board) : Board :=
  scorchPairs.foldl
    (fun bb pr =>
      match pr with
      | (p, r) =>
        let rs := bb.rows p r
        let bb1 := if rs.cards ≠ [] then bb.setGrave p (bb.graveyards p ++ rs.cards) else bb
        bb1.setRow p r { rs with cards := [], horn_active := false, weather_active := false })
    b

/-- needle in haystack: Python substring membership on strings. -/
def substrIn (needle hay : String) : Bool :=
  decide (needle.toList <:+: hay.toList)

/-- effects.activate_leader: light text matching over the lowercased
ability text; returns whether an effect was applied together with the new
board.  The weather helpers of effects.py set or clear active_weather and
sync, exactly like Board._apply_weather does for a played card. -/
def activateLeader (b : Board) (p : Pid) (abilityText : String) : Bool × Board :=
  let t := abilityText.toLower
  if substrIn "clear" t ∧ substrIn "weather" t then
    (true, Board.sync { b with active_weather := fun _ => false })
  else if substrIn "biting frost" t then
    (true, Board.sync { b with active_weather := fun r => if r = BRow.melee then true else b.active_weather r })
  else if substrIn "impenetrable fog" t then
    (true, Board.sync { b with active_weather := fun r => if r = BRow.ranged then true else b.active_weather r })
  else if substrIn "torrential rain" t then
    (true, Board.sync { b with active_weather := fun r => if r = BRow.siege then true else b.active_weather r })
  else if substrIn "skellige storm" t then
    (true, Board.sync { b with active_weather := fun _ => true })
  else if (substrIn "double" t ∨ substrIn "commander" t) ∧ (substrIn "melee" t ∨ substrIn "close" t) then
    (true, b.setRow p BRow.melee { b.rows p BRow.melee with horn_active := true })
  else if (substrIn "double" t ∨ substrIn "commander" t) ∧ (substrIn "ranged" t ∨ substrIn "range" t) then
    (true, b.setRow p BRow.ranged { b.rows p BRow.ranged with horn_active := true })
  else if (substrIn "double" t ∨ substrIn "commander" t) ∧ substrIn "siege" t then
    (true, b.setRow p BRow.siege { b.rows p BRow.siege with horn_active := true })
  else
    (false, b)

/-- Player state (player.py): id is the Pid index; deck, hand, graveyard
lists, the pass flag and the leader flag. -/
structure PState where
  deck : List Card
  hand : List Card
  graveyard : List Card
  passed : Bool
  leader_used : Bool

/-- Player.draw: move up to count cards from the front of the deck to the
hand. -/
def PState.draw (ps : PState) (count : Nat) : PState :=
  { ps with
    hand := ps.hand ++ ps.deck.take count
    deck := ps.deck.drop count }

/-- The full game state: both player objects, the shared board, and the
Match bookkeeping.  The current Round object is modelled by hasRound
together with the round's own turn/finished fields (a Match holds at most
one live round; Round methods act on these fields). -/
structure GState where
  pstate : Pid → PState
  board : Board
  hasRound : Bool
  turn : Pid
  finished : Bool
  round_number : Nat
  wins : Pid → Nat
  lives : Pid → Int

/-- Update one player's state. -/
def GState.setP (s : GState) (p : Pid) (ps : PState) : GState :=
  { s with pstate := fun p' => if p' = p then ps else s.pstate p' }

/-- Round._check_auto_end: the round finishes when every player has
passed or has an empty hand. -/
def GState.checkAutoEnd (s : GState) : GState :=
  if ((s.pstate Pid.P1).passed ∨ (s.pstate Pid.P1).hand = []) ∧
     ((s.pstate Pid.P2).passed ∨ (s.pstate Pid.P2).hand = []) then
    { s with finished := true }
  else s

/-- Round.next_player: do nothing on a finished round; otherwise rotate
to the next player who has neither passed nor an empty hand, stopping
after a full circle.  With two players this inspects the other player
once and falls back to the current index. -/
def GState.nextPlayer (s : GState) : GState :=
  if s.finished then s
  else
    let o := s.turn.opp
    if ¬ (s.pstate o).passed ∧ (s.pstate o).hand ≠ [] then { s with turn := o }
    else s

/-- Round.play_card (round.py lines 40-51): remove the card from the
player's hand (list.remove raises ValueError when absent), resolve the
play on the board, draw 2 on spy_played, and on decoy_returned call
player.add_to_hand — a method the Player class does not define, so that
call raises AttributeError; otherwise check auto-end and advance the
turn. -/
def GState.roundPlayCard (s : GState) (p : Pid) (card : Card) (target_row : Option CRow)
    (target_unit : Option Card) : Except Err Unit × GState :=
  if card ∈ (s.pstate p).hand then
    let s1 := s.setP p { s.pstate p with hand := (s.pstate p).hand.erase card }
    match s1.board.play_card p card target_row target_unit false with
    | (.error e, b') => (.error e, { s1 with board := b' })
    | (.ok events, b') =>
      let s2 := { s1 with board := b' }
      let s3 := if events.spy_played ≠ none then s2.setP p ((s2.pstate p).draw 2) else s2
      match events.decoy_returned with
      | some _ =>
        (.error (.attributeError "Player object has no attribute add_to_hand"), s3)
      | none =>
        (.ok (), s3.checkAutoEnd.nextPlayer)
  else
    (.error (.valueError "list.remove(x): x not in list"), s)

/-- Round.pass_turn: set the pass flag, check auto-end, and advance the
turn when the round is not finished. -/
def GState.roundPassTurn (s : GState) (p : Pid) : Except Err Unit × GState :=
  let s1 := (s.setP p { s.pstate p with passed := true }).checkAutoEnd
  if ¬ s1.finished then (.ok (), s1.nextPlayer) else (.ok (), s1)

/-- Round.winner: only defined on a finished round; equal totals give no
winner, otherwise the stronger player wins (players[0] is P1). -/
def GState.roundWinner (s : GState) : Option Pid :=
  if ¬ s.finished then none
  else
    let s1 := s.board.total_strength Pid.P1
    let s2 := s.board.total_strength Pid.P2
    if s1 = s2 then none
    else if s1 > s2 then some Pid.P1 else some Pid.P2

/-- Match.start_round: reset the pass flags, clear all weather and sync,
bump the round number, and construct a fresh Round (turn index 0,
unfinished). -/
def GState.startRound (s : GState) : GState :=
  let s1 := { s with pstate := fun p => { s.pstate p with passed := false } }
  let b1 := Board.sync { s1.board with active_weather := fun _ => false }
  { s1 with
    board := b1
    round_number := s1.round_number + 1
    hasRound := true
    turn := Pid.P1
    finished := false }

/-- Match._check_round_end (match.py lines 41-57): on a finished round,
credit the winner (if any) and take a life from the loser, floored at 0;
stop if somebody has two wins or three rounds were played; otherwise both
players draw one card, the board is cleaned and the next round starts.
On a drawn round the winner branch is skipped entirely, so no win is
credited and no life is lost. -/
def GState.checkRoundEnd (s : GState) : GState :=
  if s.hasRound ∧ s.finished then
    let s1 :=
      match s.roundWinner with
      | some w =>
        { s with
          wins := fun p => if p = w then s.wins p + 1 else s.wins p
          lives := fun p => if p ≠ w then max 0 (s.lives p - 1) else s.lives p }
      | none => s
    if (s1.wins Pid.P1 ≥ 2 ∨ s1.wins Pid.P2 ≥ 2) ∨ s1.round_number ≥ 3 then s1
    else
      let s2 := { s1 with pstate := fun p => (s1.pstate p).draw 1 }
      let s3 := { s2 with board := s2.board.cleanupAfterRound }
      s3.startRound
  else s

/-- Match.play_card: require a live round, delegate to Round.play_card,
then run the round-end check (skipped when the play raised, since the
exception propagates). -/
def GState.matchPlayCard (s : GState) (p : Pid) (card : Card) (target_row : Option CRow)
    (target_unit : Option Card) : Except Err Unit × GState :=
  if s.hasRound then
    match s.roundPlayCard p card target_row target_unit with
    | (.ok (), s') => (.ok (), s'.checkRoundEnd)
    | (.error e, s') => (.error e, s')
  else
    (.error (.runtimeError "No active round"), s)

/-- Match.pass_turn: require a live round, delegate to Round.pass_turn,
then run the round-end check. -/
def GState.matchPassTurn (s : GState) (p : Pid) : Except Err Unit × GState :=
  if s.hasRound then
    match s.roundPassTurn p with
    | (.ok (), s') => (.ok (), s'.checkRoundEnd)
    | (.error e, s') => (.error e, s')
  else
    (.error (.runtimeError "No active round"), s)

/-- An AI action (hybrid_ai.Action): kind "play" or "pass" with optional
card and targets. -/
structure AIAction where
  kind : String
  card : Option Card
  target_row : Option CRow
  target_unit : Option Card
deriving DecidableEq, Repr

/-- Action("pass"). -/
def AIAction.passA : AIAction :=
  { kind := "pass", card := none, target_row := none, target_unit := none }

/-- Action("play", card, target_row, target_unit). -/
def AIAction.play (c : Card) (tr : Option CRow := none) (tu : Option Card := none) : AIAction :=
  { kind := "play", card := some c, target_row := tr, target_unit := tu }

/-- The special filter of HybridAI._generate_candidate_actions. -/
def aiSpecialish (c : Card) : Bool :=
  Ability.spy ∈ c.abilities ∨ Ability.scorch ∈ c.abilities ∨ Ability.medic ∈ c.abilities ∨
    Ability.horn ∈ c.abilities ∨ Ability.weather ∈ c.abilities ∨ Ability.decoy ∈ c.abilities

/-- One step of the best-row search in the unit branch of
HybridAI._card_actions: best_score starts at float negative infinity
(modelled by none) and the first measured row always replaces it;
row_strength with a non-battle row raises KeyError. -/
def aiRowStep (s : GState) (p : Pid) (card : Card)
    (acc : Except Err (Option CRow × Option Int)) (r : CRow) :
    Except Err (Option CRow × Option Int) :=
  match acc with
  | .error e => .error e
  | .ok (bestRow, bestScore) =>
    match toBRow r with
    | .error e => .error e
    | .ok br =>
      let approx := s.board.row_strength p br + card.power
      match bestScore with
      | none => .ok (some r, some approx)
      | some bs => if approx > bs then .ok (some r, some approx) else .ok (bestRow, some bs)

/-- HybridAI._card_actions: targeted action generation for one card.  The
unit fallback path reads row_strength at the card's home row, which
raises KeyError when that row is ALL and the card has no combat_rows. -/
def cardActions (s : GState) (p : Pid) (card : Card) : Except Err (List AIAction) :=
  if Ability.decoy ∈ card.abilities ∨ Ability.mardroeme ∈ card.abilities then
    let targets := (s.board.rows p BRow.melee).cards ++ (s.board.rows p BRow.ranged).cards ++
      (s.board.rows p BRow.siege).cards
    match targets with
    | [] => .ok []
    | t0 :: rest =>
      let target := rest.foldl (fun best c => if c.power > best.power then c else best) t0
      .ok [AIAction.play card none (some target)]
  else if Ability.spy ∈ card.abilities then
    .ok [AIAction.play card]
  else if Ability.weather ∈ card.abilities ∨ (Ability.scorch ∈ card.abilities ∧ ¬ card.is_unit) then
    .ok [AIAction.play card]
  else if Ability.horn ∈ card.abilities ∧ ¬ card.is_unit then
    let best := [BRow.melee, BRow.ranged, BRow.siege].foldl
      (fun (acc : Option BRow × Int) r =>
        let gain := (((s.board.rows p r).cards.filter (fun c => ¬ c.is_hero)).map (·.power)).sum
        if gain > acc.2 then (some r, gain) else acc)
      (none, 0)
    match best.1 with
    | some r => if best.2 > 0 then .ok [AIAction.play card (some r.toC)] else .ok []
    | none => .ok []
  else
    let rowsToTry :=
      if card.combat_rows ≠ [] then card.combat_rows.filter (·.isBattle) else [card.row]
    match rowsToTry.foldl (aiRowStep s p card) (.ok (none, none)) with
    | .error e => .error e
    | .ok (bestRow, _) => .ok [AIAction.play card bestRow]

/-- One step of the action-collection loop of
HybridAI._generate_candidate_actions: a considered card still in the hand
contributes its _card_actions. -/
def genStep (s : GState) (p : Pid) (hand : List Card) (acc : Except Err (List AIAction))
    (card : Card) : Except Err (List AIAction) :=
  match acc with
  | .error e => .error e
  | .ok l =>
    if card ∈ hand then
      match cardActions s p card with
      | .error e => .error e
      | .ok as => .ok (l ++ as)
    else .ok l

/-- HybridAI._generate_candidate_actions: all specials plus up to three
representative units (weakest, median when more than two, strongest when
more than one), deduplicated, each expanded through _card_actions if
still in the hand. -/
def generateCandidates (s : GState) (p : Pid) : Except Err (List AIAction) :=
  let hand := (s.pstate p).hand
  if hand = [] then .ok []
  else
    let specials := hand.filter aiSpecialish
    let units := hand.filter (fun c => ¬ aiSpecialish c)
    let sorted := units.mergeSort (fun a b => a.power ≤ b.power)
    let reprs :=
      match sorted with
      | [] => []
      | s0 :: _ =>
        [s0] ++ (if sorted.length > 2 then [sorted.getD (sorted.length / 2) s0] else []) ++
          (if sorted.length > 1 then [sorted.getD (sorted.length - 1) s0] else [])
    let considered := reprs.foldl (fun acc u => if u ∈ acc then acc else acc ++ [u]) specials
    considered.foldl (genStep s p hand) (.ok [])

/-- HybridAI._should_consider_immediate_pass: lead at least 10 and not
already behind in lives in a decisive round. -/
def shouldConsiderImmediatePass (s : GState) (p : Pid) : Bool :=
  let lead := s.board.total_strength p - s.board.total_strength p.opp
  if lead < 10 then false
  else if s.lives p < s.lives p.opp ∧ s.round_number ≥ 2 then false
  else true

/-- HybridAI._evaluate_after_action, with the float arithmetic of the
source carried out exactly over the rationals. -/
def evaluateAfterAction (s : GState) (p : Pid) (a : AIAction) : ℚ :=
  let opp := p.opp
  let scoreDiff : Int := s.board.total_strength p - s.board.total_strength opp
  let myCards : Int := (s.pstate p).hand.length + (s.board.decks p).length
  let oppCards : Int := (s.pstate opp).hand.length + (s.board.decks opp).length
  let cardAdvantage := myCards - oppCards
  let lifeAdv : Int := s.lives p - s.lives opp
  let roundBonus : Int :=
    if s.wins p > s.wins opp then 3 else if s.wins p < s.wins opp then -3 else 0
  let abilityBonus : Int :=
    match a.card with
    | some c =>
      if a.kind = "play" then
        (if Ability.spy ∈ c.abilities then 8 else 0) +
        (if Ability.scorch ∈ c.abilities then 6 else 0) +
        (if Ability.medic ∈ c.abilities then 5 else 0) +
        (if Ability.horn ∈ c.abilities then 4 else 0) +
        (if Ability.weather ∈ c.abilities then 3 else 0)
      else 0
    | none => 0
  (scoreDiff : ℚ) + (7 / 10 : ℚ) * cardAdvantage + (3 / 2 : ℚ) * lifeAdv +
    (roundBonus : ℚ) + (1 / 2 : ℚ) * abilityBonus

/-- HybridAI.choose_action (hybrid_ai.py lines 32-58): raise without a
live round; pass on an empty candidate set; pass immediately when the
safe-lead heuristic fires (before any candidate evaluation); otherwise
return the first highest-scoring candidate (the initial best score is
float negative infinity, modelled by none). -/
def chooseAction (s : GState) (me : Pid) : Except Err AIAction :=
  if ¬ s.hasRound then .error (.runtimeError "No active round for AI")
  else
    match generateCandidates s me with
    | .error e => .error e
    | .ok cands =>
      if cands = [] then .ok AIAction.passA
      else
        let cands := cands ++ [AIAction.passA]
        if shouldConsiderImmediatePass s me then .ok AIAction.passA
        else
          match cands with
          | [] => .ok AIAction.passA
          | c0 :: _ =>
            let best := cands.foldl
              (fun (acc : Option ℚ × AIAction) a =>
                let score := evaluateAfterAction s me a
                match acc.1 with
                | none => (some score, a)
                | some bs => if score > bs then (some score, a) else acc)
              (none, c0)
            .ok best.2

/-! ## Specification-side definitions

These definitions transcribe claim wordings (not the source); the
theorems below compare them with the source translations above. -/

/-- The per-card contribution as worded in claim C1: weather clamp, then
the TightBond multiplication by the count of same-named TightBond cards
on the row (including the card itself), then the morale addition, then
the horn doubling. -/
def claimContrib (cards : List Card) (weather horn : Bool) (c : Card) : Int :=
  let base : Int :=
    if weather ∧ ¬ c.is_hero then (if c.is_unit then 1 else 0) else c.base_power
  let base :=
    if Ability.tight_bond ∈ c.abilities then base * (bondCount cards c.name : Int) else base
  let base :=
    if 0 < moraleCount cards ∧ c.is_unit ∧ Ability.morale_boost ∉ c.abilities
    then base + (moraleCount cards : Int) else base
  if horn ∧ c.is_unit ∧ ¬ c.is_hero then base * 2 else base

/-! ## Row scorer lemmas -/

theorem foldl_add_map {α : Type} (f : α → Int) :
    ∀ (l : List α) (init : Int), l.foldl (fun t c => t + f c) init = init + (l.map f).sum := by
  intro l
  induction l with
  | nil => intro init; simp
  | cons c t ih =>
    intro init
    simp only [List.foldl_cons, List.map_cons, List.sum_cons, ih]
    ring

/-- The loop of effective_strength is the sum of the per-card
contributions. -/
theorem effective_strength_eq_sum (rs : RowState) :
    rs.effective_strength =
      (rs.cards.map (contrib rs.cards rs.weather_active rs.horn_active)).sum := by
  unfold RowState.effective_strength
  rcases h : rs.cards with _ | ⟨c, t⟩
  · simp
  · simp only [reduceCtorEq, if_false, foldl_add_map, zero_add]

/-- A TightBond card on the row contributes at least itself to its bond
group, so the dict lookup with default 1 returns the true count. -/
theorem bondFactor_eq_of_mem {cards : List Card} {c : Card} (hc : c ∈ cards)
    (ht : Ability.tight_bond ∈ c.abilities) :
    bondFactor cards c.name = bondCount cards c.name := by
  have hpos : bondCount cards c.name ≠ 0 := by
    unfold bondCount
    intro h0
    rw [List.length_eq_zero] at h0
    have hmem : c ∈ cards.filter (fun d => decide (Ability.tight_bond ∈ d.abilities ∧ d.name = c.name)) :=
      List.mem_filter.mpr ⟨hc, by simp [ht]⟩
    rw [h0] at hmem
    simp at hmem
  unfold bondFactor
  simp [hpos]

/-- For a card that is actually on the row, the source contribution is
exactly the claim's contribution. -/
theorem contrib_eq_claimContrib {cards : List Card} {c : Card} (hc : c ∈ cards)
    (w h : Bool) : contrib cards w h c = claimContrib cards w h c := by
  unfold contrib claimContrib
  by_cases ht : Ability.tight_bond ∈ c.abilities
  · rw [bondFactor_eq_of_mem hc ht]
    by_cases hm : moraleCount cards = 0 <;> by_cases hu : c.is_unit <;>
      by_cases hb : Ability.morale_boost ∈ c.abilities <;>
      simp [ht, hm, hu, hb, Nat.pos_iff_ne_zero]
  · by_cases hm : moraleCount cards = 0 <;> by_cases hu : c.is_unit <;>
      by_cases hb : Ability.morale_boost ∈ c.abilities <;>
      simp [ht, hm, hu, hb, Nat.pos_iff_ne_zero]

/-- Equal-multiset rows score equally: bond counts, morale counts and the
summed contributions only depend on the multiset of cards. -/
theorem effective_strength_perm {l l' : List Card} (h : List.Perm l l') (r : BRow) (w hn : Bool) :
    RowState.effective_strength { row := r, cards := l, weather_active := w, horn_active := hn } =
      RowState.effective_strength { row := r, cards := l', weather_active := w, horn_active := hn } := by
  have hbond : ∀ n, bondCount l n = bondCount l' n := by
    intro n
    unfold bondCount
    rw [← List.countP_eq_length_filter, ← List.countP_eq_length_filter, h.countP_eq]
  have hmor : moraleCount l = moraleCount l' := by
    unfold moraleCount
    rw [← List.countP_eq_length_filter, ← List.countP_eq_length_filter, h.countP_eq]
  have hcontrib : ∀ c, contrib l w hn c = contrib l' w hn c := by
    intro c
    unfold contrib bondFactor
    rw [hbond, hmor]
  rw [effective_strength_eq_sum, effective_strength_eq_sum]
  rw [funext hcontrib]
  exact ((h.map (contrib l' w hn)).sum_eq)

/-- The three-unit weather-clamp row of the claim: non-hero units of
powers 10, 6 and 2 under active weather. -/
def clampUnit (i : String) (pw : Int) : Card :=
  { id := i, name := i, type := CardType.unit, row := CRow.melee, power := pw, hero := false,
    abilities := [], combat_rows := [], group := none, avenged := false, transformed := false }

/-- C1.  RowState.effective_strength is, for every row, the sum over its
cards of the claimed per-card contribution (weather clamp, then bond
multiplication by the same-name TightBond count, then the morale
addition for units without MoraleBoost, then the horn doubling of
non-hero units), and on a weather-struck row holding non-hero units of
powers 10, 6 and 2 the row strength is 3. -/
theorem C1_effective_strength_spec :
    (∀ rs : RowState,
      rs.effective_strength =
        (rs.cards.map (claimContrib rs.cards rs.weather_active rs.horn_active)).sum) ∧
    RowState.effective_strength
      { row := BRow.melee,
        cards := [clampUnit "a" 10, clampUnit "b" 6, clampUnit "c" 2],
        weather_active := true, horn_active := false } = 3 := by
  constructor
  · intro rs
    rw [effective_strength_eq_sum]
    exact congrArg List.sum (List.map_congr_left fun c hc =>
      contrib_eq_claimContrib hc rs.weather_active rs.horn_active)
  · decide

/-! ## AI lemmas (claim C9) -/

theorem toBRow_ok_of_isBattle {r : CRow} (h : r.isBattle = true) :
    ∃ br, toBRow r = .ok br := by
  cases r <;> simp_all [CRow.isBattle, toBRow]

theorem aiRowStep_ok (s : GState) (p : Pid) (card : Card) (acc : Option CRow × Option Int)
    {r : CRow} (h : r.isBattle = true) :
    ∃ acc', aiRowStep s p card (.ok acc) r = .ok acc' := by
  obtain ⟨br, hbr⟩ := toBRow_ok_of_isBattle h
  obtain ⟨bestRow, bestScore⟩ := acc
  unfold aiRowStep
  rw [hbr]
  cases bestScore with
  | none => exact ⟨_, rfl⟩
  | some bs =>
    simp only
    split <;> exact ⟨_, rfl⟩

theorem aiRowFold_ok (s : GState) (p : Pid) (card : Card) :
    ∀ (l : List CRow) (acc : Option CRow × Option Int), (∀ r ∈ l, r.isBattle = true) →
      ∃ v, l.foldl (aiRowStep s p card) (.ok acc) = .ok v := by
  intro l
  induction l with
  | nil => exact fun acc _ => ⟨acc, rfl⟩
  | cons r t ih =>
    intro acc hb
    obtain ⟨acc', hstep⟩ := aiRowStep_ok s p card acc (hb r (by simp))
    rw [List.foldl_cons, hstep]
    exact ih acc' fun r' hr' => hb r' (by simp [hr'])

/-- _card_actions raises no exception provided the card does not combine
an ALL home row with an empty combat_rows list (the one configuration
whose row lookup raises KeyError). -/
theorem cardActions_ok (s : GState) (p : Pid) (card : Card)
    (hwf : card.combat_rows = [] → card.row ≠ CRow.all) :
    ∃ l, cardActions s p card = .ok l := by
  unfold cardActions
  by_cases h1 : Ability.decoy ∈ card.abilities ∨ Ability.mardroeme ∈ card.abilities
  · rw [if_pos h1]
    rcases h : (s.board.rows p BRow.melee).cards ++ (s.board.rows p BRow.ranged).cards ++
        (s.board.rows p BRow.siege).cards with _ | ⟨t0, rest⟩ <;> simp [h]
  · rw [if_neg h1]
    by_cases h2 : Ability.spy ∈ card.abilities
    · rw [if_pos h2]; exact ⟨_, rfl⟩
    · rw [if_neg h2]
      by_cases h3 : Ability.weather ∈ card.abilities ∨
          (Ability.scorch ∈ card.abilities ∧ ¬ card.is_unit)
      · rw [if_pos h3]; exact ⟨_, rfl⟩
      · rw [if_neg h3]
        by_cases h4 : Ability.horn ∈ card.abilities ∧ ¬ card.is_unit
        · rw [if_pos h4]
          dsimp only
          split <;> first
            | exact ⟨_, rfl⟩
            | (split <;> exact ⟨_, rfl⟩)
        · rw [if_neg h4]
          have hrows : ∀ r ∈ (if card.combat_rows ≠ [] then card.combat_rows.filter (·.isBattle)
              else [card.row]), r.isBattle = true := by
            intro r hr
            by_cases hcr : card.combat_rows = []
            · simp only [hcr, ne_eq, not_true_eq_false, if_false, List.mem_singleton] at hr
              subst hr
              have := hwf hcr
              cases hx : card.row <;> simp_all [CRow.isBattle]
            · simp only [hcr, ne_eq, not_false_eq_true, if_true, List.mem_filter] at hr
              exact hr.2
          obtain ⟨⟨vr, vs⟩, hv⟩ := aiRowFold_ok s p card _ (none, none) hrows
          dsimp only
          rw [hv]
          exact ⟨_, rfl⟩

theorem genFold_ok (s : GState) (p : Pid) (hand : List Card)
    (hwf : ∀ c ∈ hand, c.combat_rows = [] → c.row ≠ CRow.all) :
    ∀ (l : List Card) (acc : List AIAction),
      ∃ v, l.foldl (genStep s p hand) (.ok acc) = .ok v := by
  intro l
  induction l with
  | nil => exact fun acc => ⟨acc, rfl⟩
  | cons card t ih =>
    intro acc
    rw [List.foldl_cons]
    unfold genStep
    by_cases hmem : card ∈ hand
    · obtain ⟨as, has⟩ := cardActions_ok s p card (hwf card hmem)
      simp only [hmem, if_true, has]
      exact ih _
    · simp only [hmem, if_false]
      exact ih _

theorem generateCandidates_ok (s : GState) (p : Pid)
    (hwf : ∀ c ∈ (s.pstate p).hand, c.combat_rows = [] → c.row ≠ CRow.all) :
    ∃ cs, generateCandidates s p = .ok cs := by
  unfold generateCandidates
  by_cases h : (s.pstate p).hand = []
  · simp [h]
  · simp only [h, if_false]
    exact genFold_ok s p _ hwf _ _

/-- C9 amended.  Whenever choose_action runs with a live round, a
total-strength lead of at least 10, not (behind in lives with
round_number at least 2), and no hand card combining an ALL home row with
an empty combat_rows list, it returns the Pass action: the immediate-pass
heuristic fires before the 1-ply candidate evaluation.  The last
hypothesis is necessary: without it candidate generation reads
row_strength at the ALL row and raises KeyError before the heuristic is
consulted (see the counterexample). -/
theorem C9_ai_immediate_pass (s : GState) (me : Pid)
    (hr : s.hasRound = true)
    (hwf : ∀ c ∈ (s.pstate me).hand, c.combat_rows = [] → c.row ≠ CRow.all)
    (hlead : 10 ≤ s.board.total_strength me - s.board.total_strength me.opp)
    (hlives : ¬ (s.lives me < s.lives me.opp ∧ 2 ≤ s.round_number)) :
    chooseAction s me = .ok AIAction.passA := by
  have hsp : shouldConsiderImmediatePass s me = true := by
    unfold shouldConsiderImmediatePass
    rw [if_neg (by omega)]
    rw [if_neg hlives]
  unfold chooseAction
  rw [if_neg (by simp [hr])]
  obtain ⟨cs, hcs⟩ := generateCandidates_ok s me hwf
  rw [hcs]
  by_cases hnil : cs = []
  · simp [hnil]
  · simp only [hnil, if_false, hsp, if_true]

/-- A board where P1 leads by 15. -/
def aiBoardW : Board :=
  Board.init.setRow Pid.P1 BRow.melee
    { row := BRow.melee, cards := [clampUnit "w1" 15], weather_active := false,
      horn_active := false }

/-- A concrete state in the scope of C9: live round, P1 leads 15 to 0,
equal lives. -/
def aiStateW : GState :=
  { pstate := fun p =>
      { deck := [], hand := if p = Pid.P1 then [clampUnit "h1" 2] else [], graveyard := [],
        passed := false, leader_used := false }
    board := aiBoardW
    hasRound := true
    turn := Pid.P1
    finished := false
    round_number := 1
    wins := fun _ => 0
    lives := fun _ => 2 }

/-- Witness for C9 at a concrete state. -/
theorem C9_ai_immediate_pass_witness :
    chooseAction aiStateW Pid.P1 = .ok AIAction.passA :=
  C9_ai_immediate_pass aiStateW Pid.P1 (by decide) (by decide) (by decide) (by decide)

/-- A card with an ALL home row and no combat_rows, the shape
card_factory.py gives the Avenger specials. -/
def aiBadCard : Card :=
  { id := "avs", name := "Avenger", type := CardType.special, row := CRow.all, power := 0,
    hero := false, abilities := [], combat_rows := [], group := none, avenged := false,
    transformed := false }

/-- A state inside C9's quantification (live round, P1 leads 15 to 0,
equal lives) whose hand holds only the ALL-row card. -/
def aiStateBad : GState :=
  { pstate := fun p =>
      { deck := [], hand := if p = Pid.P1 then [aiBadCard] else [], graveyard := [],
        passed := false, leader_used := false }
    board := aiBoardW
    hasRound := true
    turn := Pid.P1
    finished := false
    round_number := 1
    wins := fun _ => 0
    lives := fun _ => 2 }

/-- Counterexample to C9 as stated: this state satisfies every condition
the claim quantifies over (live round, lead 15 >= 10, equal lives), yet
choose_action does not return Pass — candidate generation reaches the
unit fallback of _card_actions, reads row_strength at the card's ALL
home row, and raises KeyError before the immediate-pass heuristic is
consulted. -/
theorem C9_keyerror_counterexample :
    aiStateBad.hasRound = true ∧
    10 ≤ aiStateBad.board.total_strength Pid.P1 -
      aiStateBad.board.total_strength Pid.P1.opp ∧
    ¬ (aiStateBad.lives Pid.P1 < aiStateBad.lives Pid.P1.opp ∧
        2 ≤ aiStateBad.round_number) ∧
    chooseAction aiStateBad Pid.P1 = .error Err.keyError := by
  refine ⟨rfl, by decide, by decide, ?_⟩
  have hgen : generateCandidates aiStateBad Pid.P1 = .error Err.keyError := by
    unfold generateCandidates
    dsimp only
    rw [if_neg (by decide)]
    rw [show (aiStateBad.pstate Pid.P1).hand.filter (fun c => ¬ aiSpecialish c) = [aiBadCard]
      from by decide]
    rw [List.mergeSort_singleton]
    decide
  unfold chooseAction
  rw [if_neg (by decide), hgen]

/-! ## Round/match round-end lemmas (claims C4, C5) -/

/-- A state in which both players are about to finish a round with equal
(empty-board) totals. -/
def drawnStateW : GState :=
  { pstate := fun _ =>
      { deck := [], hand := [], graveyard := [], passed := false, leader_used := false }
    board := Board.init
    hasRound := true
    turn := Pid.P1
    finished := false
    round_number := 1
    wins := fun _ => 0
    lives := fun _ => 2 }

/-- Counterexample to C5 as stated: this pass finishes the round as a
draw (totals 0 = 0), the call succeeds, no round-win is credited — and
neither player loses a life (both stay at 2, not 1 as the claim
requires), because the life-decrement loop sits inside the winner branch
of Match._check_round_end. -/
theorem C5_draw_counterexample :
    (drawnStateW.matchPassTurn Pid.P1).1 = .ok () ∧
    drawnStateW.board.total_strength Pid.P1 = drawnStateW.board.total_strength Pid.P2 ∧
    (drawnStateW.matchPassTurn Pid.P1).2.wins Pid.P1 = 0 ∧
    (drawnStateW.matchPassTurn Pid.P1).2.wins Pid.P2 = 0 ∧
    (drawnStateW.matchPassTurn Pid.P1).2.lives Pid.P1 = 2 ∧
    (drawnStateW.matchPassTurn Pid.P1).2.lives Pid.P2 = 2 ∧
    ¬ (drawnStateW.matchPassTurn Pid.P1).2.lives Pid.P1 = 1 := by
  decide

/-- C5 amended.  When a round finishes with equal total strengths, the
round-end check of Match awards a round-win to neither player and leaves
both players' lives unchanged: on a draw Round.winner returns no winner
and the whole win/life bookkeeping branch of Match._check_round_end is
skipped (lives are decremented only for the loser of a decided round,
floored at 0). -/
theorem C5_draw_awards_nothing (s : GState)
    (hr : s.hasRound = true) (hf : s.finished = true)
    (heq : s.board.total_strength Pid.P1 = s.board.total_strength Pid.P2) :
    s.checkRoundEnd.wins = s.wins ∧ s.checkRoundEnd.lives = s.lives := by
  have hw : s.roundWinner = none := by
    unfold GState.roundWinner
    rw [if_neg (by simp [hf])]
    simp [heq]
  simp only [GState.checkRoundEnd, hr, hf, hw, and_self, if_true]
  split <;> exact ⟨rfl, rfl⟩

/-- A finished drawn round, for the C5 witness. -/
def drawnFinishedW : GState :=
  { drawnStateW with finished := true }

/-- Witness for C5 at a concrete drawn round. -/
theorem C5_draw_awards_nothing_witness :
    drawnFinishedW.checkRoundEnd.wins = drawnFinishedW.wins ∧
      drawnFinishedW.checkRoundEnd.lives = drawnFinishedW.lives :=
  C5_draw_awards_nothing drawnFinishedW (by decide) (by decide) (by decide)

/-- A decoy special card. -/
def decoyW : Card :=
  { id := "dc", name := "Decoy", type := CardType.special, row := CRow.all, power := 0,
    hero := false, abilities := [Ability.decoy], combat_rows := [], group := none,
    avenged := false, transformed := false }

/-- A plain melee unit. -/
def unitW : Card := clampUnit "u1" 5

/-- A state where P1 holds a Decoy and has a unit on the melee row. -/
def c4StateW : GState :=
  { pstate := fun p =>
      { deck := [], hand := if p = Pid.P1 then [decoyW] else [clampUnit "p2" 1],
        graveyard := [], passed := false, leader_used := false }
    board := Board.init.setRow Pid.P1 BRow.melee
      { row := BRow.melee, cards := [unitW], weather_active := false, horn_active := false }
    hasRound := true
    turn := Pid.P1
    finished := false
    round_number := 1
    wins := fun _ => 0
    lives := fun _ => 2 }

/-- C4 evaluated at the failing input: a successful board-level Decoy
play makes Round.play_card call the nonexistent Player.add_to_hand, so
the call raises AttributeError; at that point the board has already
placed the decoy on the unit's row and removed the targeted unit, and the
unit was never appended to the hand — it is in no container. -/
theorem C4_decoy_return_crashes :
    (c4StateW.roundPlayCard Pid.P1 decoyW none (some unitW)).1 =
      .error (.attributeError "Player object has no attribute add_to_hand") ∧
    ((c4StateW.roundPlayCard Pid.P1 decoyW none (some unitW)).2.board.rows Pid.P1
        BRow.melee).cards = [decoyW] ∧
    ((c4StateW.roundPlayCard Pid.P1 decoyW none (some unitW)).2.pstate Pid.P1).hand = [] ∧
    ((c4StateW.roundPlayCard Pid.P1 decoyW none (some unitW)).2.board.rows Pid.P1
        BRow.ranged).cards = [] ∧
    ((c4StateW.roundPlayCard Pid.P1 decoyW none (some unitW)).2.board.rows Pid.P1
        BRow.siege).cards = [] ∧
    ((c4StateW.roundPlayCard Pid.P1 decoyW none (some unitW)).2.board.graveyards Pid.P1) = [] ∧
    ((c4StateW.roundPlayCard Pid.P1 decoyW none (some unitW)).2.pstate Pid.P1).deck = [] := by
  decide

/-! ## Scorch: specification-side definitions (claims C6, C10) -/

/-- The incremental on-board value of a card, as worded in the spec: the
row's effective strength with the card minus the effective strength with
that single card removed. -/
def scorchValue (rs : RowState) (c : Card) : Int :=
  rs.effective_strength - { rs with cards := rs.cards.erase c }.effective_strength

/-- The Scorch candidates of one row: its non-hero units, tagged with
their location. -/
def rowCandidates (b : Board) (p : Pid) (r : BRow) : List (Card × Pid × BRow) :=
  ((b.rows p r).cards.filter (fun c => c.is_unit ∧ ¬ c.is_hero)).map (fun c => (c, p, r))

/-- All Scorch candidates over both players' rows, in scan order. -/
def scorchCandidates (b : Board) : List (Card × Pid × BRow) :=
  scorchPairs.flatMap (fun pr => rowCandidates b pr.1 pr.2)

/-- The incremental value of a located candidate. -/
def tripleVal (b : Board) (t : Card × Pid × BRow) : Int :=
  scorchValue (b.rows t.2.1 t.2.2) t.1

/-- The highest candidate value, clamped below at 0 (the scan starts its
highest at 0). -/
def scorchMax (b : Board) : Int :=
  (scorchCandidates b).foldl (fun a t => max a (tripleVal b t)) 0

/-- The victims as the spec words them, restricted by the source's
strict positivity: all candidates of maximal incremental value, provided
that maximum is positive; none otherwise. -/
def scorchVictimsSpec (b : Board) : List (Card × Pid × BRow) :=
  if 0 < scorchMax b then
    (scorchCandidates b).filter (fun t => tripleVal b t = scorchMax b)
  else []

/-- The victim cards recorded for one row. -/
def victimCardsAt (b : Board) (p : Pid) (r : BRow) : List Card :=
  ((scorchVictimsSpec b).filter (fun t => t.2.1 = p ∧ t.2.2 = r)).map (fun t => t.1)

/-- The victim cards owned by one player, in destruction order. -/
def victimCardsOf (b : Board) (p : Pid) : List Card :=
  ((scorchVictimsSpec b).filter (fun t => t.2.1 = p)).map (fun t => t.1)

/-! ## Scorch: the (highest, victims) accumulator -/

theorem vfold_le {α : Type} (v : α → Int) :
    ∀ (P : List α) (init : Int), init ≤ P.foldl (fun a t => max a (v t)) init := by
  intro P
  induction P with
  | nil => intro init; simp
  | cons t rest ih =>
    intro init
    calc init ≤ max init (v t) := le_max_left _ _
    _ ≤ rest.foldl (fun a t => max a (v t)) (max init (v t)) := ih _

theorem vfold_mem_le {α : Type} (v : α → Int) :
    ∀ (P : List α) (init : Int) (y : α), y ∈ P →
      v y ≤ P.foldl (fun a t => max a (v t)) init := by
  intro P
  induction P with
  | nil => intro _ y hy; cases hy
  | cons t rest ih =>
    intro init y hy
    rcases List.mem_cons.mp hy with h | h
    · subst h
      calc v y ≤ max init (v y) := le_max_right _ _
      _ ≤ _ := vfold_le v rest _
    · exact ih _ y h

/-- The canonical accumulator after processing a list P of candidates:
the clamped maximum and, when positive, exactly the maximal candidates in
order. -/
def canonAcc {α : Type} (v : α → Int) (P : List α) : Int × List α :=
  (P.foldl (fun a t => max a (v t)) 0,
   if 0 < P.foldl (fun a t => max a (v t)) 0 then
     P.filter (fun t => v t = P.foldl (fun a t => max a (v t)) 0)
   else [])

theorem scanStep_canon (v : Card × Pid × BRow → Int) (P : List (Card × Pid × BRow))
    (t : Card × Pid × BRow) :
    scanStep (canonAcc v P) (v t) t.1 t.2.1 t.2.2 = canonAcc v (P ++ [t]) := by
  have hM0 : (0 : Int) ≤ P.foldl (fun a t => max a (v t)) 0 := vfold_le v P 0
  have hMem : ∀ y ∈ P, v y ≤ P.foldl (fun a t => max a (v t)) 0 :=
    fun y hy => vfold_mem_le v P 0 y hy
  have happ : (P ++ [t]).foldl (fun a t => max a (v t)) 0 =
      max (P.foldl (fun a t => max a (v t)) 0) (v t) := by
    rw [List.foldl_append]
    rfl
  set M := P.foldl (fun a t => max a (v t)) 0 with hMdef
  unfold canonAcc scanStep
  rw [happ]
  by_cases h1 : v t > M
  · rw [if_pos h1]
    have hmax : max M (v t) = v t := max_eq_right (le_of_lt h1)
    rw [hmax]
    have hpos : (0 : Int) < v t := lt_of_le_of_lt hM0 h1
    rw [if_pos hpos]
    have hfilter : P.filter (fun y => decide (v y = v t)) = [] := by
      rw [List.filter_eq_nil_iff]
      intro y hy
      simp only [decide_eq_true_eq]
      intro heq
      exact absurd h1 (not_lt.mpr (heq ▸ hMem y hy))
    rw [List.filter_append, hfilter]
    simp
  · rw [if_neg h1]
    have hmax : max M (v t) = M := max_eq_left (not_lt.mp h1)
    rw [hmax]
    by_cases h2 : v t = M ∧ v t > 0
    · rw [if_pos h2]
      have hpos : (0 : Int) < M := h2.1 ▸ h2.2
      rw [if_pos hpos, if_pos hpos]
      rw [List.filter_append]
      simp [h2.1]
    · rw [if_neg h2]
      by_cases hpos : (0 : Int) < M
      · rw [if_pos hpos, if_pos hpos]
        have hne : ¬ v t = M := by
          intro heq
          exact h2 ⟨heq, heq ▸ hpos⟩
        rw [List.filter_append]
        simp [hne]
      · rw [if_neg hpos, if_neg hpos]

theorem scanFold_canon (v : Card × Pid × BRow → Int) :
    ∀ (L P : List (Card × Pid × BRow)),
      L.foldl (fun a t => scanStep a (v t) t.1 t.2.1 t.2.2) (canonAcc v P) =
        canonAcc v (P ++ L) := by
  intro L
  induction L with
  | nil => intro P; simp
  | cons t rest ih =>
    intro P
    rw [List.foldl_cons, scanStep_canon v P t, ih (P ++ [t]), List.append_assoc]
    rfl

/-! ## Scorch: the per-row victim scan -/

/-- The row identifier field does not enter the strength computation. -/
theorem eff_mk (r' : BRow) (rs : RowState) :
    RowState.effective_strength
      { row := r', cards := rs.cards, weather_active := rs.weather_active,
        horn_active := rs.horn_active } = rs.effective_strength := rfl

theorem erase_append_singleton_perm (a : Card) (l : List Card) :
    List.Perm ((l ++ [a]).erase a) l := by
  have h1 : List.Perm ((l ++ [a]).erase a) ((a :: l).erase a) :=
    (List.perm_append_singleton a l).erase a
  rwa [List.erase_cons_head] at h1

/-- The victim scan of one row computes, for each candidate in original
order, its incremental value relative to the row's original multiset, and
finishes with a permutation of the original cards. -/
theorem scorchScanCards_spec (p : Pid) (r : BRow) (rs₀ : RowState) :
    ∀ (suffix processed : List Card) (acc : Int × List (Card × Pid × BRow)),
      List.Perm (processed ++ suffix) rs₀.cards →
      (scorchScanCards p r rs₀.weather_active rs₀.horn_active processed suffix acc).1 =
        (suffix.filter (fun c => c.is_unit ∧ ¬ c.is_hero)).foldl
          (fun a c => scanStep a (scorchValue rs₀ c) c p r) acc ∧
      List.Perm ((scorchScanCards p r rs₀.weather_active rs₀.horn_active processed suffix acc).2)
        rs₀.cards := by
  intro suffix
  induction suffix with
  | nil =>
    intro processed acc hperm
    rw [List.append_nil] at hperm
    exact ⟨rfl, hperm⟩
  | cons c rest ih =>
    intro processed acc hperm
    by_cases hc : c.is_unit = true ∧ ¬ c.is_hero = true
    · have hcur : List.Perm (processed ++ c :: rest) rs₀.cards := hperm
      have hval :
          RowState.effective_strength
            { row := r, cards := processed ++ c :: rest,
              weather_active := rs₀.weather_active, horn_active := rs₀.horn_active } -
          RowState.effective_strength
            { row := r, cards := (processed ++ c :: rest).erase c,
              weather_active := rs₀.weather_active, horn_active := rs₀.horn_active } =
            scorchValue rs₀ c := by
        have h1 := effective_strength_perm hcur r rs₀.weather_active rs₀.horn_active
        have h2 := effective_strength_perm (hcur.erase c) r rs₀.weather_active rs₀.horn_active
        rw [h1, h2]
        rfl
      have hperm' :
          List.Perm ((c :: (processed ++ [c]).erase c) ++ rest) rs₀.cards := by
        have h1 : List.Perm ((processed ++ [c]).erase c ++ rest) (processed ++ rest) :=
          (erase_append_singleton_perm c processed).append_right rest
        exact (h1.cons c).trans ((List.perm_middle).symm.trans hcur)
      obtain ⟨ih1, ih2⟩ := ih (c :: (processed ++ [c]).erase c)
        (scanStep acc
          (RowState.effective_strength
            { row := r, cards := processed ++ c :: rest,
              weather_active := rs₀.weather_active, horn_active := rs₀.horn_active } -
           RowState.effective_strength
            { row := r, cards := (processed ++ c :: rest).erase c,
              weather_active := rs₀.weather_active, horn_active := rs₀.horn_active })
          c p r) hperm'
      constructor
      · rw [show (c :: rest).filter (fun c => decide (c.is_unit = true ∧ ¬ c.is_hero = true)) =
            c :: rest.filter (fun c => decide (c.is_unit = true ∧ ¬ c.is_hero = true)) by
              simp [List.filter_cons, hc]]
        rw [List.foldl_cons]
        rw [show scorchScanCards p r rs₀.weather_active rs₀.horn_active processed (c :: rest) acc =
            scorchScanCards p r rs₀.weather_active rs₀.horn_active
              (c :: (processed ++ [c]).erase c) rest
              (scanStep acc
                (RowState.effective_strength
                  { row := r, cards := processed ++ c :: rest,
                    weather_active := rs₀.weather_active, horn_active := rs₀.horn_active } -
                 RowState.effective_strength
                  { row := r, cards := (processed ++ c :: rest).erase c,
                    weather_active := rs₀.weather_active, horn_active := rs₀.horn_active })
                c p r) by
              simp only [scorchScanCards]
              rw [if_pos hc]]
        rw [ih1, hval]
      · rw [show scorchScanCards p r rs₀.weather_active rs₀.horn_active processed (c :: rest) acc =
            scorchScanCards p r rs₀.weather_active rs₀.horn_active
              (c :: (processed ++ [c]).erase c) rest
              (scanStep acc
                (RowState.effective_strength
                  { row := r, cards := processed ++ c :: rest,
                    weather_active := rs₀.weather_active, horn_active := rs₀.horn_active } -
                 RowState.effective_strength
                  { row := r, cards := (processed ++ c :: rest).erase c,
                    weather_active := rs₀.weather_active, horn_active := rs₀.horn_active })
                c p r) by
              simp only [scorchScanCards]
              rw [if_pos hc]]
        exact ih2
    · have hperm' : List.Perm ((processed ++ [c]) ++ rest) rs₀.cards := by
        rwa [List.append_assoc, List.singleton_append]
      obtain ⟨ih1, ih2⟩ := ih (processed ++ [c]) acc hperm'
      have hstep : scorchScanCards p r rs₀.weather_active rs₀.horn_active processed (c :: rest) acc =
          scorchScanCards p r rs₀.weather_active rs₀.horn_active (processed ++ [c]) rest acc := by
        simp only [scorchScanCards]
        rw [if_neg hc]
      constructor
      · rw [hstep, ih1,
          show (c :: rest).filter (fun c => decide (c.is_unit = true ∧ ¬ c.is_hero = true)) =
            rest.filter (fun c => decide (c.is_unit = true ∧ ¬ c.is_hero = true)) by
              rw [List.filter_cons_of_neg]
              simpa using hc]
      · rw [hstep]
        exact ih2

/-! ## Scorch: the whole-board scan -/

theorem setRow_same (b : Board) (p : Pid) (r : BRow) (rs : RowState) :
    (b.setRow p r rs).rows p r = rs := by
  simp [Board.setRow]

theorem setRow_ne (b : Board) (p : Pid) (r : BRow) (rs : RowState) (p' : Pid) (r' : BRow)
    (h : ¬ (p' = p ∧ r' = r)) : (b.setRow p r rs).rows p' r' = b.rows p' r' := by
  simp [Board.setRow, h]

/-- One candidate processed in triple form. -/
def tripleStep (b : Board) (a : Int × List (Card × Pid × BRow)) (t : Card × Pid × BRow) :
    Int × List (Card × Pid × BRow) :=
  scanStep a (tripleVal b t) t.1 t.2.1 t.2.2

theorem scanRowFoldStep_eq (acc : Int × List (Card × Pid × BRow)) (bb : Board) (p : Pid)
    (r : BRow) :
    scanRowFoldStep (acc, bb) (p, r) =
      ((scorchScanCards p r (bb.rows p r).weather_active (bb.rows p r).horn_active []
          (bb.rows p r).cards acc).1,
        bb.setRow p r
          { bb.rows p r with
            cards := (scorchScanCards p r (bb.rows p r).weather_active
              (bb.rows p r).horn_active [] (bb.rows p r).cards acc).2 }) := rfl

/-- The fold over a duplicate-free list of row keys, each agreeing with
the reference board: the accumulator is the candidate fold and each
scanned row becomes a permutation of its reference cards with unchanged
flags; rows outside the key list and all other board fields are
untouched. -/
theorem scanPairs_spec (b : Board) :
    ∀ (pairs : List (Pid × BRow)) (acc : Int × List (Card × Pid × BRow)) (bb : Board),
      pairs.Nodup →
      (∀ pr ∈ pairs, bb.rows pr.1 pr.2 = b.rows pr.1 pr.2) →
      (pairs.foldl scanRowFoldStep (acc, bb)).1 =
        (pairs.flatMap (fun pr => rowCandidates b pr.1 pr.2)).foldl (tripleStep b) acc ∧
      (∀ pr ∈ pairs,
        List.Perm ((pairs.foldl scanRowFoldStep (acc, bb)).2.rows pr.1 pr.2).cards
          (b.rows pr.1 pr.2).cards ∧
        ((pairs.foldl scanRowFoldStep (acc, bb)).2.rows pr.1 pr.2).weather_active =
          (b.rows pr.1 pr.2).weather_active ∧
        ((pairs.foldl scanRowFoldStep (acc, bb)).2.rows pr.1 pr.2).horn_active =
          (b.rows pr.1 pr.2).horn_active ∧
        ((pairs.foldl scanRowFoldStep (acc, bb)).2.rows pr.1 pr.2).row =
          (b.rows pr.1 pr.2).row) ∧
      (∀ p' r', (p', r') ∉ pairs →
        (pairs.foldl scanRowFoldStep (acc, bb)).2.rows p' r' = bb.rows p' r') ∧
      (pairs.foldl scanRowFoldStep (acc, bb)).2.decks = bb.decks ∧
      (pairs.foldl scanRowFoldStep (acc, bb)).2.graveyards = bb.graveyards ∧
      (pairs.foldl scanRowFoldStep (acc, bb)).2.active_weather = bb.active_weather := by
  intro pairs
  induction pairs with
  | nil =>
    intro acc bb _ _
    exact ⟨rfl, by simp, fun _ _ _ => rfl, rfl, rfl, rfl⟩
  | cons pr0 tail ih =>
    intro acc bb hnd hagree
    obtain ⟨p, r⟩ := pr0
    have hbbrow : bb.rows p r = b.rows p r := hagree (p, r) (by simp)
    -- the head step
    obtain ⟨hrow1, hrow2⟩ := scorchScanCards_spec p r (b.rows p r) (b.rows p r).cards [] acc
      (by simp)
    have hstep : scanRowFoldStep (acc, bb) (p, r) =
        ((scorchScanCards p r (b.rows p r).weather_active (b.rows p r).horn_active []
            (b.rows p r).cards acc).1,
          bb.setRow p r
            { b.rows p r with
              cards := (scorchScanCards p r (b.rows p r).weather_active
                (b.rows p r).horn_active [] (b.rows p r).cards acc).2 }) := by
      rw [scanRowFoldStep_eq, hbbrow]
    set A1 := (scorchScanCards p r (b.rows p r).weather_active (b.rows p r).horn_active []
        (b.rows p r).cards acc).1 with hA1
    set cards1 := (scorchScanCards p r (b.rows p r).weather_active (b.rows p r).horn_active []
        (b.rows p r).cards acc).2 with hcards1
    set bb1 := bb.setRow p r { b.rows p r with cards := cards1 } with hbb1
    have hA1fold : A1 = (rowCandidates b p r).foldl (tripleStep b) acc := by
      rw [hrow1]
      unfold rowCandidates
      rw [List.foldl_map]
      rfl
    have hnotail : (p, r) ∉ tail := (List.nodup_cons.mp hnd).1
    have hagree1 : ∀ pr ∈ tail, bb1.rows pr.1 pr.2 = b.rows pr.1 pr.2 := by
      intro pr hpr
      have hne : ¬ (pr.1 = p ∧ pr.2 = r) := by
        intro hcon
        apply hnotail
        have : pr = (p, r) := Prod.ext hcon.1 hcon.2
        rwa [this] at hpr
      rw [hbb1, setRow_ne _ _ _ _ _ _ hne]
      exact hagree pr (by simp [hpr])
    obtain ⟨ih1, ih2, ih3, ih4, ih5, ih6⟩ := ih A1 bb1 (List.nodup_cons.mp hnd).2 hagree1
    have hfold : ((p, r) :: tail).foldl scanRowFoldStep (acc, bb) =
        tail.foldl scanRowFoldStep (A1, bb1) := by
      rw [List.foldl_cons, hstep]
    refine ⟨?_, ?_, ?_, ?_, ?_, ?_⟩
    · rw [hfold, ih1, hA1fold, List.flatMap_cons, List.foldl_append]
    · intro pr hpr
      rcases List.mem_cons.mp hpr with h | h
      · subst h
        have hout : (tail.foldl scanRowFoldStep (A1, bb1)).2.rows p r = bb1.rows p r :=
          ih3 p r hnotail
        rw [hfold, hout, hbb1, setRow_same]
        exact ⟨hrow2, rfl, rfl, rfl⟩
      · rw [hfold]
        exact ih2 pr h
    · intro p' r' hmem
      have hnt : (p', r') ∉ tail := fun hcon => hmem (by simp [hcon])
      have hne : ¬ (p' = p ∧ r' = r) := by
        intro hcon
        exact hmem (by simp [hcon.1, hcon.2])
      rw [hfold, ih3 p' r' hnt, hbb1, setRow_ne _ _ _ _ _ _ hne]
    · rw [hfold, ih4]
      rfl
    · rw [hfold, ih5]
      rfl
    · rw [hfold, ih6]
      rfl

/-- The victim scan of Board._apply_scorch: the accumulator is the
canonical (highest, victims) pair over all candidates, each row keeps its
multiset of cards and its flags, and decks, graveyards and weather are
untouched. -/
theorem applyScorchScan_spec (b : Board) :
    b.applyScorchScan.1 = canonAcc (tripleVal b) (scorchCandidates b) ∧
    (∀ p r, List.Perm (b.applyScorchScan.2.rows p r).cards (b.rows p r).cards) ∧
    (∀ p r, (b.applyScorchScan.2.rows p r).weather_active = (b.rows p r).weather_active ∧
      (b.applyScorchScan.2.rows p r).horn_active = (b.rows p r).horn_active ∧
      (b.applyScorchScan.2.rows p r).row = (b.rows p r).row) ∧
    b.applyScorchScan.2.decks = b.decks ∧
    b.applyScorchScan.2.graveyards = b.graveyards ∧
    b.applyScorchScan.2.active_weather = b.active_weather := by
  obtain ⟨h1, h2, h3, h4, h5, h6⟩ := scanPairs_spec b scorchPairs (0, []) b (by decide)
    (fun _ _ => rfl)
  have hmem : ∀ (p : Pid) (r : BRow), (p, r) ∈ scorchPairs := by
    intro p r
    cases p <;> cases r <;> simp [scorchPairs]
  refine ⟨?_, fun p r => (h2 (p, r) (hmem p r)).1, fun p r => (h2 (p, r) (hmem p r)).2.1.symm ▸
    ⟨rfl, ((h2 (p, r) (hmem p r)).2.2.1), ((h2 (p, r) (hmem p r)).2.2.2)⟩, h4, h5, h6⟩
  show (scorchPairs.foldl scanRowFoldStep ((0, []), b)).1 = _
  rw [h1]
  exact scanFold_canon (tripleVal b) (scorchCandidates b) []

/-- canonAcc instantiated at the candidate list is the spec-side maximum
and victim list. -/
theorem canonAcc_eq_spec (b : Board) :
    canonAcc (tripleVal b) (scorchCandidates b) = (scorchMax b, scorchVictimsSpec b) := rfl

/-! ## Scorch: the removal loop -/

theorem pushGrave_rows (b : Board) (p : Pid) (c : Card) :
    (b.pushGrave p c).rows = b.rows := rfl

theorem pushGrave_graveyards (b : Board) (p : Pid) (c : Card) (q : Pid) :
    (b.pushGrave p c).graveyards q = if q = p then b.graveyards p ++ [c] else b.graveyards q :=
  rfl

/-- The removal loop of Board._apply_scorch, on victims none of which
carry Avenger and whose per-row multiplicities are available on the
board: every row loses exactly its recorded victims (erased in order),
every victim is appended to its owner's graveyard in order, and flags,
decks and weather are untouched. -/
theorem removeFold_spec :
    ∀ (victims : List (Card × Pid × BRow)) (bb : Board),
      (∀ t ∈ victims, Ability.avenger ∉ t.1.abilities) →
      (∀ p r x, (((victims.filter (fun t => t.2.1 = p ∧ t.2.2 = r)).map (fun t => t.1)).count x ≤
        ((bb.rows p r).cards).count x)) →
      (∀ p r, ((victims.foldl removeStep bb).rows p r).cards =
        ((victims.filter (fun t => t.2.1 = p ∧ t.2.2 = r)).map (fun t => t.1)).foldl
          List.erase (bb.rows p r).cards) ∧
      (∀ p r, ((victims.foldl removeStep bb).rows p r).weather_active =
          (bb.rows p r).weather_active ∧
        ((victims.foldl removeStep bb).rows p r).horn_active = (bb.rows p r).horn_active ∧
        ((victims.foldl removeStep bb).rows p r).row = (bb.rows p r).row) ∧
      (∀ p, (victims.foldl removeStep bb).graveyards p =
        bb.graveyards p ++ (victims.filter (fun t => t.2.1 = p)).map (fun t => t.1)) ∧
      (victims.foldl removeStep bb).decks = bb.decks ∧
      (victims.foldl removeStep bb).active_weather = bb.active_weather := by
  intro victims
  induction victims with
  | nil =>
    intro bb _ _
    exact ⟨fun p r => rfl, fun p r => ⟨rfl, rfl, rfl⟩, fun p => by simp, rfl, rfl⟩
  | cons t vs ih =>
    intro bb hA hcount
    obtain ⟨c, p₀, r₀⟩ := t
    have hmem : c ∈ (bb.rows p₀ r₀).cards := by
      have h := hcount p₀ r₀ c
      rw [List.filter_cons_of_pos (by simp)] at h
      rw [List.map_cons, List.count_cons_self] at h
      have : 0 < ((bb.rows p₀ r₀).cards).count c := by omega
      exact List.count_pos_iff.mp this
    have hstep : removeStep bb (c, p₀, r₀) =
        (bb.setRow p₀ r₀
          { bb.rows p₀ r₀ with cards := ((bb.rows p₀ r₀).cards).erase c }).pushGrave p₀ c := by
      unfold removeStep RowState.remove Board.onUnitRemoved
      dsimp only
      rw [if_pos (by simpa using hmem)]
      rw [if_neg (fun hcon => (hA (c, p₀, r₀) (by simp)) hcon.1)]
    set bb2 := (bb.setRow p₀ r₀
      { bb.rows p₀ r₀ with cards := ((bb.rows p₀ r₀).cards).erase c }).pushGrave p₀ c with hbb2
    have hrows2 : ∀ p r, (bb2.rows p r).cards =
        if p = p₀ ∧ r = r₀ then ((bb.rows p₀ r₀).cards).erase c else (bb.rows p r).cards := by
      intro p r
      rw [hbb2, pushGrave_rows]
      by_cases h : p = p₀ ∧ r = r₀
      · rw [if_pos h, h.1, h.2, setRow_same]
      · rw [if_neg h, setRow_ne _ _ _ _ _ _ h]
    have hflags2 : ∀ p r, (bb2.rows p r).weather_active = (bb.rows p r).weather_active ∧
        (bb2.rows p r).horn_active = (bb.rows p r).horn_active ∧
        (bb2.rows p r).row = (bb.rows p r).row := by
      intro p r
      rw [hbb2, pushGrave_rows]
      by_cases h : p = p₀ ∧ r = r₀
      · rw [h.1, h.2, setRow_same]
        exact ⟨rfl, rfl, rfl⟩
      · rw [setRow_ne _ _ _ _ _ _ h]
        exact ⟨rfl, rfl, rfl⟩
    have hcount2 : ∀ p r x,
        (((vs.filter (fun t => t.2.1 = p ∧ t.2.2 = r)).map (fun t => t.1)).count x ≤
          ((bb2.rows p r).cards).count x) := by
      intro p r x
      rw [hrows2]
      by_cases h : p = p₀ ∧ r = r₀
      · rw [if_pos h]
        have hfull := hcount p r x
        rw [h.1, h.2] at hfull
        rw [List.filter_cons_of_pos (by simp), List.map_cons] at hfull
        rw [List.count_erase]
        by_cases hx : c = x
        · subst hx
          rw [List.count_cons_self] at hfull
          simp only [beq_self_eq_true, if_true]
          rw [h.1, h.2]
          omega
        · rw [List.count_cons_of_ne (fun hccon => hx hccon.symm)] at hfull
          have hbeq : (c == x) = false := beq_eq_false_iff_ne.mpr hx
          rw [hbeq, h.1, h.2]
          simpa using hfull
      · rw [if_neg h]
        have hfull := hcount p r x
        rw [List.filter_cons_of_neg (by
          simp only [decide_eq_true_eq]
          intro hcon
          exact absurd ⟨hcon.1.symm, hcon.2.symm⟩ h)] at hfull
        exact hfull
    obtain ⟨ihr, ihf, ihg, ihd, ihw⟩ := ih bb2 (fun t ht => hA t (by simp [ht])) hcount2
    have hfoldstep : ((c, p₀, r₀) :: vs).foldl removeStep bb = vs.foldl removeStep bb2 := by
      rw [List.foldl_cons, hstep]
    refine ⟨?_, ?_, ?_, ?_, ?_⟩
    · intro p r
      rw [hfoldstep, ihr p r, hrows2 p r]
      by_cases h : p = p₀ ∧ r = r₀
      · obtain ⟨hp, hr'⟩ := h
        subst hp
        subst hr'
        rw [if_pos ⟨rfl, rfl⟩]
        rw [List.filter_cons_of_pos (by simp), List.map_cons, List.foldl_cons]
      · rw [if_neg h]
        rw [List.filter_cons_of_neg (by
          simp only [decide_eq_true_eq]
          intro hcon
          exact absurd ⟨hcon.1.symm, hcon.2.symm⟩ h)]
    · intro p r
      obtain ⟨hw1, hw2, hw3⟩ := ihf p r
      obtain ⟨hv1, hv2, hv3⟩ := hflags2 p r
      rw [hfoldstep]
      exact ⟨hw1.trans hv1, hw2.trans hv2, hw3.trans hv3⟩
    · intro p
      rw [hfoldstep, ihg p, hbb2, pushGrave_graveyards]
      by_cases hp : p = p₀
      · subst hp
        rw [if_pos rfl]
        rw [List.filter_cons_of_pos (by simp), List.map_cons]
        rw [show (bb.setRow p r₀
          { bb.rows p r₀ with cards := ((bb.rows p r₀).cards).erase c }).graveyards p =
            bb.graveyards p from rfl]
        rw [List.append_assoc]
        rfl
      · rw [if_neg hp]
        rw [List.filter_cons_of_neg (by
          simp only [decide_eq_true_eq]
          intro hcon
          exact absurd hcon.symm hp)]
        rfl
    · rw [hfoldstep]
      exact ihd.trans rfl
    · rw [hfoldstep]
      exact ihw.trans rfl

/-! ## Scorch: locating victims on the board -/

theorem victimsSpec_sublist (b : Board) :
    List.Sublist (scorchVictimsSpec b) (scorchCandidates b) := by
  unfold scorchVictimsSpec
  split
  · exact List.filter_sublist _
  · exact List.nil_sublist _

theorem mem_scorchCandidates {b : Board} {t : Card × Pid × BRow}
    (h : t ∈ scorchCandidates b) :
    t.1 ∈ (b.rows t.2.1 t.2.2).cards ∧ t.1.is_unit = true ∧ t.1.is_hero = false := by
  unfold scorchCandidates rowCandidates at h
  rw [List.mem_flatMap] at h
  obtain ⟨pr, _, hmem⟩ := h
  rw [List.mem_map] at hmem
  obtain ⟨c, hc, hct⟩ := hmem
  rw [List.mem_filter] at hc
  subst hct
  refine ⟨hc.1, ?_, ?_⟩
  · have := of_decide_eq_true hc.2
    exact this.1
  · have := of_decide_eq_true hc.2
    simpa using this.2

theorem rowCandidates_filter_key (b : Board) (p' : Pid) (r' : BRow) (p : Pid) (r : BRow) :
    (rowCandidates b p' r').filter (fun t => decide (t.2.1 = p ∧ t.2.2 = r)) =
      if p' = p ∧ r' = r then rowCandidates b p' r' else [] := by
  unfold rowCandidates
  by_cases h : p' = p ∧ r' = r
  · rw [if_pos h]
    rw [List.filter_eq_self.mpr]
    intro t ht
    rw [List.mem_map] at ht
    obtain ⟨c, _, hct⟩ := ht
    subst hct
    simp [h.1, h.2]
  · rw [if_neg h]
    rw [List.filter_eq_nil_iff.mpr]
    intro t ht
    rw [List.mem_map] at ht
    obtain ⟨c, _, hct⟩ := ht
    subst hct
    simpa using h

theorem candidates_filter_key (b : Board) (p : Pid) (r : BRow) :
    (scorchCandidates b).filter (fun t => decide (t.2.1 = p ∧ t.2.2 = r)) =
      rowCandidates b p r := by
  unfold scorchCandidates
  cases p <;> cases r <;>
    (simp only [scorchPairs, List.flatMap_cons, List.flatMap_nil, List.append_nil,
      List.filter_append, rowCandidates_filter_key] <;> simp)

theorem rowCandidates_map_fst (b : Board) (p : Pid) (r : BRow) :
    (rowCandidates b p r).map (fun t => t.1) =
      (b.rows p r).cards.filter (fun c => c.is_unit ∧ ¬ c.is_hero) := by
  unfold rowCandidates
  rw [List.map_map]
  exact List.map_id _

theorem victimCardsAt_sublist (b : Board) (p : Pid) (r : BRow) :
    List.Sublist (victimCardsAt b p r) ((b.rows p r).cards) := by
  unfold victimCardsAt
  have h1 : List.Sublist
      ((scorchVictimsSpec b).filter (fun t => decide (t.2.1 = p ∧ t.2.2 = r)))
      ((scorchCandidates b).filter (fun t => decide (t.2.1 = p ∧ t.2.2 = r))) :=
    (victimsSpec_sublist b).filter _
  rw [candidates_filter_key] at h1
  have h2 := h1.map (fun t : Card × Pid × BRow => t.1)
  rw [rowCandidates_map_fst] at h2
  exact h2.trans (List.filter_sublist _)

theorem foldl_erase_sublist : ∀ (vs l : List Card), List.Sublist (vs.foldl List.erase l) l := by
  intro vs
  induction vs with
  | nil => intro l; exact List.Sublist.refl l
  | cons c rest ih =>
    intro l
    rw [List.foldl_cons]
    exact (ih (l.erase c)).trans (List.erase_sublist c l)

theorem foldl_erase_perm {l l' : List Card} (vs : List Card) (h : List.Perm l l') :
    List.Perm (vs.foldl List.erase l) (vs.foldl List.erase l') := by
  induction vs generalizing l l' with
  | nil => exact h
  | cons c rest ih =>
    rw [List.foldl_cons, List.foldl_cons]
    exact ih (h.erase c)

theorem vfold_bound {α : Type} (v : α → Int) (M : Int) :
    ∀ (P : List α) (init : Int), init ≤ M → (∀ y ∈ P, v y ≤ M) →
      P.foldl (fun a t => max a (v t)) init ≤ M := by
  intro P
  induction P with
  | nil => intro init h _; exact h
  | cons t rest ih =>
    intro init hinit hall
    rw [List.foldl_cons]
    exact ih _ (max_le hinit (hall t (by simp))) fun y hy => hall y (by simp [hy])

/-- Full characterization of Board._apply_scorch when no victim carries
Avenger (Avenger bystanders anywhere on the rows are fine): every row
keeps its multiset of cards minus its recorded victims, every victim
lands in its owner's graveyard in scan order, and all flags, decks and
the weather map are untouched. -/
theorem applyScorch_spec (b : Board)
    (hAv : ∀ t ∈ scorchVictimsSpec b, Ability.avenger ∉ t.1.abilities) :
    (∀ p r, List.Perm (b.applyScorch.rows p r).cards
      ((victimCardsAt b p r).foldl List.erase (b.rows p r).cards)) ∧
    (∀ p, b.applyScorch.graveyards p = b.graveyards p ++ victimCardsOf b p) ∧
    (∀ p r, (b.applyScorch.rows p r).weather_active = (b.rows p r).weather_active ∧
      (b.applyScorch.rows p r).horn_active = (b.rows p r).horn_active ∧
      (b.applyScorch.rows p r).row = (b.rows p r).row) ∧
    b.applyScorch.decks = b.decks ∧
    b.applyScorch.active_weather = b.active_weather := by
  obtain ⟨hacc, hperm, hflags, hdecks, hgys, hweather⟩ := applyScorchScan_spec b
  have hvict : b.applyScorchScan.1.2 = scorchVictimsSpec b := by
    rw [hacc, canonAcc_eq_spec]
  have hcnt : ∀ p r x,
      (((scorchVictimsSpec b).filter (fun t => t.2.1 = p ∧ t.2.2 = r)).map
        (fun t => t.1)).count x ≤ ((b.applyScorchScan.2.rows p r).cards).count x := by
    intro p r x
    rw [(hperm p r).count_eq x]
    exact (victimCardsAt_sublist b p r).count_le x
  obtain ⟨hr1, hr2, hr3, hr4, hr5⟩ := removeFold_spec (scorchVictimsSpec b)
    b.applyScorchScan.2 hAv hcnt
  have happly : b.applyScorch =
      (scorchVictimsSpec b).foldl removeStep b.applyScorchScan.2 := by
    unfold Board.applyScorch
    dsimp only
    rw [hvict]
  refine ⟨?_, ?_, ?_, ?_, ?_⟩
  · intro p r
    rw [happly, hr1 p r]
    exact foldl_erase_perm _ (hperm p r)
  · intro p
    rw [happly, hr3 p]
    rw [show b.applyScorchScan.2.graveyards p = b.graveyards p from congrFun hgys p]
    rfl
  · intro p r
    obtain ⟨h1, h2, h3⟩ := hr2 p r
    obtain ⟨h4, h5, h6⟩ := hflags p r
    rw [happly]
    exact ⟨h1.trans h4, h2.trans h5, h3.trans h6⟩
  · rw [happly, hr4, hdecks]
  · rw [happly, hr5, hweather]

/-- Two units for the C6 counterexample. -/
def cu10 : Card := clampUnit "u10" 10
/-- The weaker survivor of the C6 counterexample. -/
def cu5 : Card := clampUnit "u5" 5
/-- A zero-power unit. -/
def cz1 : Card := clampUnit "z1" 0
/-- Another zero-power unit. -/
def cz2 : Card := clampUnit "z2" 0
/-- An Avenger unit of maximal value. -/
def cav : Card :=
  { clampUnit "av" 5 with abilities := [Ability.avenger] }
/-- A bystander unit. -/
def cn3 : Card := clampUnit "n3" 3

/-- A one-row board holding the given melee cards for P1. -/
def meleeBoard (cs : List Card) : Board :=
  Board.init.setRow Pid.P1 BRow.melee
    { row := BRow.melee, cards := cs, weather_active := false, horn_active := false }

/-- Counterexample to C6 as stated, in three parts.  (a) On a board with
units of powers 10 and 5, Scorch destroys the 10 and the surviving unit
has incremental value 5, strictly smaller than the destroyed unit's 10 —
so a surviving non-hero unit with strictly smaller incremental value than
a destroyed one does remain, contradicting the claim's final sentence.
(b) On a board with two 0-power units, the candidates of maximal
incremental value (0) are not destroyed: the scan requires a strictly
positive value, so both units survive and nothing reaches a graveyard.
(c) An unavenged Avenger victim of maximal value is not appended to its
owner's graveyard: it returns to its row. -/
theorem C6_scorch_counterexample :
    (cu5 ∈ ((meleeBoard [cu10, cu5]).applyScorch.rows Pid.P1 BRow.melee).cards ∧
      cu10 ∈ (meleeBoard [cu10, cu5]).applyScorch.graveyards Pid.P1 ∧
      scorchValue ((meleeBoard [cu10, cu5]).rows Pid.P1 BRow.melee) cu5 <
        scorchValue ((meleeBoard [cu10, cu5]).rows Pid.P1 BRow.melee) cu10) ∧
    (cz1 ∈ ((meleeBoard [cz1, cz2]).applyScorch.rows Pid.P1 BRow.melee).cards ∧
      cz2 ∈ ((meleeBoard [cz1, cz2]).applyScorch.rows Pid.P1 BRow.melee).cards ∧
      tripleVal (meleeBoard [cz1, cz2]) (cz1, Pid.P1, BRow.melee) = scorchMax (meleeBoard [cz1, cz2]) ∧
      (meleeBoard [cz1, cz2]).applyScorch.graveyards Pid.P1 = []) ∧
    ((meleeBoard [cav, cn3]).applyScorch.graveyards Pid.P1 = [] ∧
      { cav with avenged := true } ∈
        ((meleeBoard [cav, cn3]).applyScorch.rows Pid.P1 BRow.melee).cards) := by
  decide

/-- C6 amended.  Provided no victim carries Avenger (an unavenged Avenger
victim returns to its row instead of staying in the graveyard; Avenger
bystanders on any row are fine), Scorch destroys exactly the non-hero
unit(s) whose incremental value (row strength with the card minus without
it) is maximal across both players' rows combined and strictly positive —
all tied top candidates simultaneously, heroes never among them; each
destroyed unit is appended to its owning player's graveyard in scan
order; when no candidate has strictly positive incremental value nothing
is destroyed; and afterwards no surviving non-hero unit has strictly
greater incremental value than any destroyed one. -/
theorem C6_scorch_amended (b : Board)
    (hA : ∀ t ∈ scorchVictimsSpec b, Ability.avenger ∉ t.1.abilities) :
    (∀ p r, List.Perm (b.applyScorch.rows p r).cards
      ((victimCardsAt b p r).foldl List.erase (b.rows p r).cards)) ∧
    (∀ p, b.applyScorch.graveyards p = b.graveyards p ++ victimCardsOf b p) ∧
    (∀ t ∈ scorchVictimsSpec b, tripleVal b t = scorchMax b ∧ 0 < scorchMax b ∧
      t.1.is_unit = true ∧ t.1.is_hero = false) ∧
    ((∀ t ∈ scorchCandidates b, tripleVal b t ≤ 0) → scorchVictimsSpec b = []) ∧
    (∀ p r c, c ∈ (b.applyScorch.rows p r).cards → c.is_unit = true → c.is_hero = false →
      ∀ t ∈ scorchVictimsSpec b, scorchValue (b.rows p r) c ≤ tripleVal b t) := by
  obtain ⟨hrows, hgys, _, _, _⟩ := applyScorch_spec b hA
  refine ⟨hrows, hgys, ?_, ?_, ?_⟩
  · intro t ht
    unfold scorchVictimsSpec at ht
    by_cases hpos : 0 < scorchMax b
    · rw [if_pos hpos] at ht
      rw [List.mem_filter] at ht
      have hval := of_decide_eq_true ht.2
      obtain ⟨_, hu, hh⟩ := mem_scorchCandidates ht.1
      exact ⟨hval, hpos, hu, hh⟩
    · rw [if_neg hpos] at ht
      cases ht
  · intro hle
    have hmaxle : scorchMax b ≤ 0 :=
      vfold_bound (tripleVal b) 0 (scorchCandidates b) 0 le_rfl hle
    unfold scorchVictimsSpec
    rw [if_neg (not_lt.mpr hmaxle)]
  · intro p r c hc hu hh t ht
    have hcb : c ∈ (b.rows p r).cards := by
      have h1 := (hrows p r).mem_iff.mp hc
      exact (foldl_erase_sublist _ _).subset h1
    have hcand : (c, p, r) ∈ scorchCandidates b := by
      unfold scorchCandidates
      rw [List.mem_flatMap]
      refine ⟨(p, r), by cases p <;> cases r <;> simp [scorchPairs], ?_⟩
      unfold rowCandidates
      rw [List.mem_map]
      exact ⟨c, List.mem_filter.mpr ⟨hcb, by simp [hu, hh]⟩, rfl⟩
    have hle : tripleVal b (c, p, r) ≤ scorchMax b :=
      vfold_mem_le (tripleVal b) (scorchCandidates b) 0 _ hcand
    have hvt : tripleVal b t = scorchMax b := by
      unfold scorchVictimsSpec at ht
      by_cases hpos : 0 < scorchMax b
      · rw [if_pos hpos] at ht
        exact of_decide_eq_true (List.mem_filter.mp ht).2
      · rw [if_neg hpos] at ht
        cases ht
    rw [hvt]
    exact hle

/-- Witness for C6 at a concrete board: the destroyed card reaches the
graveyard as computed by the spec-side victim list. -/
theorem C6_scorch_amended_witness :
    (meleeBoard [cu10, cu5]).applyScorch.graveyards Pid.P1 =
      (meleeBoard [cu10, cu5]).graveyards Pid.P1 ++ victimCardsOf (meleeBoard [cu10, cu5]) Pid.P1 :=
  (C6_scorch_amended (meleeBoard [cu10, cu5]) (by decide)).2.1 Pid.P1

/-! ## Claim C10: Scorch with no positive-value candidate -/

/-- A standalone Scorch special. -/
def scorchW : Card :=
  { id := "sc", name := "Scorch", type := CardType.special, row := CRow.all, power := 0,
    hero := false, abilities := [Ability.scorch], combat_rows := [], group := none,
    avenged := false, transformed := false }

/-- Evaluating a Scorch-special play: the stem takes the scorch branch. -/
theorem playScorch_eq (b : Board) (player : Pid) (card : Card) (tr : Option CRow)
    (tu : Option Card) (hsc : Ability.scorch ∈ card.abilities) (hu : card.is_unit = false)
    (hw : Ability.weather ∉ card.abilities) :
    b.play_card player card tr tu false =
      (.ok Events.init, b.applyScorch.pushGrave player card) := by
  have hstem : b.playCardStem player card tr tu =
      { res := .ok Events.init, board := b.applyScorch.pushGrave player card,
        fell := false } := by
    unfold Board.playCardStem playCardStemCR
    rw [if_neg hw, if_pos ⟨hsc, hu⟩]
    rfl
  unfold Board.play_card
  rw [if_neg (by simp)]
  unfold Board.playCardAux
  rw [hstem]
  simp

/-- Counterexample to C10 as stated: with two 0-power units on P1's
melee row (in stored order z1, z2), the Scorch special removes no card
and moves only itself to the graveyard — but the row's card list is not
unchanged: the victim scan reinserts each candidate at index 0 and leaves
the list reversed. -/
theorem C10_scorch_counterexample :
    ((meleeBoard [cz1, cz2]).play_card Pid.P1 scorchW none none false).1 = .ok Events.init ∧
    (((meleeBoard [cz1, cz2]).play_card Pid.P1 scorchW none none
        false).2.rows Pid.P1 BRow.melee).cards = [cz2, cz1] ∧
    ¬ (((meleeBoard [cz1, cz2]).play_card Pid.P1 scorchW none none
        false).2.rows Pid.P1 BRow.melee).cards = [cz1, cz2] ∧
    ((meleeBoard [cz1, cz2]).play_card Pid.P1 scorchW none none
        false).2.graveyards Pid.P1 = [scorchW] := by
  decide

/-- C10 amended.  When no Scorch candidate has strictly positive
incremental value, playing a standalone Scorch special succeeds, removes
no card from any row (each row keeps its multiset of cards — though the
scan leaves the stored order reversed), leaves both graveyards' previous
contents unchanged, and moves only the played special itself to its
owner's graveyard. -/
theorem C10_scorch_noop (b : Board) (player : Pid) (card : Card) (tr : Option CRow)
    (tu : Option Card)
    (hsc : Ability.scorch ∈ card.abilities) (hu : card.is_unit = false)
    (hw : Ability.weather ∉ card.abilities)
    (hval : ∀ t ∈ scorchCandidates b, tripleVal b t ≤ 0) :
    (b.play_card player card tr tu false).1 = .ok Events.init ∧
    (∀ p r, List.Perm ((b.play_card player card tr tu false).2.rows p r).cards
      (b.rows p r).cards) ∧
    (∀ p, (b.play_card player card tr tu false).2.graveyards p =
      if p = player then b.graveyards player ++ [card] else b.graveyards p) ∧
    (b.play_card player card tr tu false).2.decks = b.decks := by
  obtain ⟨hacc, hperm, _, hdecks, hgys, _⟩ := applyScorchScan_spec b
  have hmaxle : scorchMax b ≤ 0 :=
    vfold_bound (tripleVal b) 0 (scorchCandidates b) 0 le_rfl hval
  have hvict : b.applyScorchScan.1.2 = scorchVictimsSpec b := by
    rw [hacc, canonAcc_eq_spec]
  have hnil : scorchVictimsSpec b = [] := by
    unfold scorchVictimsSpec
    rw [if_neg (not_lt.mpr hmaxle)]
  have happly : b.applyScorch = b.applyScorchScan.2 := by
    unfold Board.applyScorch
    dsimp only
    rw [hvict, hnil]
    rfl
  rw [playScorch_eq b player card tr tu hsc hu hw]
  refine ⟨rfl, ?_, ?_, ?_⟩
  · intro p r
    rw [show (b.applyScorch.pushGrave player card).rows = b.applyScorch.rows from rfl, happly]
    exact hperm p r
  · intro p
    rw [pushGrave_graveyards, happly]
    rw [show b.applyScorchScan.2.graveyards = b.graveyards from hgys]
  · rw [show (b.applyScorch.pushGrave player card).decks = b.applyScorch.decks from rfl,
      happly, hdecks]

/-- Witness for C10 on the two-zero-unit board. -/
theorem C10_scorch_noop_witness :
    ((meleeBoard [cz1, cz2]).play_card Pid.P2 scorchW none none false).2.graveyards Pid.P2 =
      (meleeBoard [cz1, cz2]).graveyards Pid.P2 ++ [scorchW] := by
  have h := (C10_scorch_noop (meleeBoard [cz1, cz2]) Pid.P2 scorchW none none
    (by decide) (by decide) (by decide) (by decide)).2.2.1 Pid.P2
  simpa using h

/-! ## Claim C7: Muster suppression and one-level recursion -/

/-- C7.  For a play that reaches the Muster trigger with suppression off:
(a) every play made with suppress_muster true is exactly the
non-recursive dispatch/placement stem — it never re-enters Muster — and
(b) the play equals the stem followed by removing from the deck exactly
the units whose group tag matches the played card's group (falling back
to its name) and folding suppressed plays of those units in order.
Together these show every Muster chain terminates after exactly one
level of recursion. -/
theorem C7_muster_suppression (b : Board) (p : Pid) (card : Card) (tr : Option CRow)
    (tu : Option Card)
    (hm : Ability.muster ∈ card.abilities)
    (hfell : (b.playCardStem p card tr tu).fell = true) :
    (∀ (bb : Board) (c : Card),
      bb.play_card p c none none true =
        ((bb.playCardStem p c none none).res, (bb.playCardStem p c none none).board)) ∧
    b.play_card p card tr tu false =
      (((b.playCardStem p card tr tu).board.decks p).filter
          (musterMatches (pyGroup card))).foldl
        (fun acc c =>
          match acc with
          | (.error e, bb) => (.error e, bb)
          | (.ok ev, bb) =>
            match bb.play_card p c none none true with
            | (.error e, bb') => (.error e, bb')
            | (.ok _, bb') => (.ok ev, bb'))
        ((b.playCardStem p card tr tu).res,
         (b.playCardStem p card tr tu).board.setDeck p
           (((b.playCardStem p card tr tu).board.decks p).filter
             (fun c => !(musterMatches (pyGroup card) c)))) := by
  refine ⟨fun bb c => rfl, ?_⟩
  show Board.playCardAux 1 b p card tr tu = _
  unfold Board.playCardAux
  dsimp only
  rw [if_pos ⟨hfell, hm⟩]
  rfl

/-- A Muster unit of the Clan group. -/
def musterUnit (i : String) (pw : Int) : Card :=
  { clampUnit i pw with abilities := [Ability.muster], group := some "Clan" }

/-- A board whose P1 deck holds two Clan units. -/
def musterBW : Board :=
  Board.init.setDeck Pid.P1 [musterUnit "m2" 3, musterUnit "m3" 2]

/-- Witness for C7: a suppressed play on the concrete Muster board is
exactly the stem. -/
theorem C7_muster_suppression_witness :
    musterBW.play_card Pid.P1 (musterUnit "m2" 3) none none true =
      ((musterBW.playCardStem Pid.P1 (musterUnit "m2" 3) none none).res,
        (musterBW.playCardStem Pid.P1 (musterUnit "m2" 3) none none).board) :=
  (C7_muster_suppression musterBW Pid.P1 (musterUnit "m1" 4) none none (by decide)
    (by decide)).1 musterBW (musterUnit "m2" 3)

/-! ## Claim C8: the weather mirror invariant -/

/-- The invariant: every row's weather flag mirrors the global map. -/
def WInvB (b : Board) : Prop :=
  ∀ p r, (b.rows p r).weather_active = b.active_weather r

instance decWInvB (b : Board) : Decidable (WInvB b) :=
  inferInstanceAs (Decidable (∀ p r, (b.rows p r).weather_active = b.active_weather r))

theorem WInvB_sync (b : Board) : WInvB b.sync := fun _ _ => rfl

theorem WInvB_setRow {b : Board} (p : Pid) (r : BRow) (rs : RowState) (hb : WInvB b)
    (hrs : rs.weather_active = b.active_weather r) : WInvB (b.setRow p r rs) := by
  intro p' r'
  unfold Board.setRow
  dsimp only
  by_cases h : p' = p ∧ r' = r
  · rw [if_pos h, h.2]
    exact hrs
  · rw [if_neg h]
    exact hb p' r'

theorem WInvB_pushGrave {b : Board} (p : Pid) (c : Card) (hb : WInvB b) :
    WInvB (b.pushGrave p c) := fun p' r' => hb p' r'

theorem WInvB_setGrave {b : Board} (p : Pid) (l : List Card) (hb : WInvB b) :
    WInvB (b.setGrave p l) := fun p' r' => hb p' r'

theorem WInvB_setDeck {b : Board} (p : Pid) (l : List Card) (hb : WInvB b) :
    WInvB (b.setDeck p l) := fun p' r' => hb p' r'

theorem WInvB_applyWeather (b : Board) (card : Card) : WInvB (b.applyWeather card) := by
  unfold Board.applyWeather
  dsimp only
  split <;> exact WInvB_sync _

theorem WInvB_add {b : Board} (p : Pid) (r : BRow) (c : Card) (hb : WInvB b) :
    WInvB (b.setRow p r ((b.rows p r).add c)) :=
  WInvB_setRow p r _ hb (hb p r)

theorem WInvB_onUnitRemoved {b : Board} (p : Pid) (c : Card) (r : BRow) (hb : WInvB b) :
    WInvB (b.onUnitRemoved p c r) := by
  unfold Board.onUnitRemoved
  split
  · exact WInvB_sync _
  · exact WInvB_pushGrave _ _ hb

theorem WInvB_removeStep {bb : Board} (t : Card × Pid × BRow) (hb : WInvB bb) :
    WInvB (removeStep bb t) := by
  obtain ⟨c, p, r⟩ := t
  unfold removeStep RowState.remove
  dsimp only
  split
  · exact WInvB_onUnitRemoved p c r (WInvB_setRow p r _ hb (hb p r))
  · exact WInvB_setRow p r _ hb (hb p r)

theorem WInvB_removeFold (vs : List (Card × Pid × BRow)) :
    ∀ (bb : Board), WInvB bb → WInvB (vs.foldl removeStep bb) := by
  induction vs with
  | nil => exact fun bb hb => hb
  | cons t rest ih =>
    intro bb hb
    rw [List.foldl_cons]
    exact ih _ (WInvB_removeStep t hb)

theorem WInvB_applyScorch {b : Board} (hb : WInvB b) : WInvB b.applyScorch := by
  obtain ⟨_, _, hflags, _, _, hweather⟩ := applyScorchScan_spec b
  have hscan : WInvB b.applyScorchScan.2 := by
    intro p r
    rw [(hflags p r).1, hweather]
    exact hb p r
  unfold Board.applyScorch
  exact WInvB_removeFold _ _ hscan

theorem WInvB_stemDecoy (b : Board) (p : Pid) (card : Card) (cr : CRow)
    (tu : Option Card) (hb : WInvB b) : WInvB (stemDecoy b p card cr tu).board := by
  unfold stemDecoy
  dsimp only
  split
  · exact hb
  · split
    · exact hb
    · apply WInvB_add
      apply WInvB_setRow _ _ _ hb
      exact hb p _

theorem WInvB_stemMardroeme (b : Board) (p : Pid) (card : Card) (tu : Option Card)
    (hb : WInvB b) : WInvB (stemMardroeme b p card tu).board := by
  unfold stemMardroeme
  dsimp only
  split
  · exact hb
  · exact WInvB_sync _

theorem WInvB_stemSpy (b : Board) (p : Pid) (card : Card) (cr : CRow) (hb : WInvB b) :
    WInvB (stemSpy b p card cr).board := by
  unfold stemSpy
  dsimp only
  split
  · exact hb
  · split
    · exact WInvB_sync _
    · exact hb

theorem WInvB_stemHorn (b : Board) (p : Pid) (card : Card) (cr : CRow) (hb : WInvB b) :
    WInvB (stemHorn b p card cr).board := by
  unfold stemHorn
  dsimp only
  split
  · exact WInvB_pushGrave _ _ (WInvB_sync _)
  · exact hb

theorem WInvB_stemUnit (b : Board) (p : Pid) (card : Card) (cr : CRow) (hb : WInvB b) :
    WInvB (stemUnit b p card cr).board := by
  unfold stemUnit
  dsimp only
  split
  · exact hb
  · split
    · split
      · split
        · exact WInvB_sync _
        · split
          · exact WInvB_setGrave _ _ (WInvB_sync _)
          · split
            · exact WInvB_setGrave _ _ (WInvB_sync _)
            · apply WInvB_add
              exact WInvB_setGrave _ _ (WInvB_sync _)
      · exact WInvB_sync _
    · exact hb

theorem WInvB_stem (b : Board) (p : Pid) (card : Card) (tr : Option CRow)
    (tu : Option Card) (hb : WInvB b) : WInvB (b.playCardStem p card tr tu).board := by
  unfold Board.playCardStem playCardStemCR
  split
  · exact WInvB_pushGrave _ _ (WInvB_applyWeather b card)
  · split
    · exact WInvB_pushGrave _ _ (WInvB_applyScorch hb)
    · split
      · exact WInvB_stemDecoy _ _ _ _ _ hb
      · split
        · exact WInvB_stemMardroeme _ _ _ _ hb
        · split
          · exact WInvB_stemSpy _ _ _ _ hb
          · split
            · exact WInvB_stemHorn _ _ _ _ hb
            · exact WInvB_stemUnit _ _ _ _ hb

theorem WInvB_playCardAux :
    ∀ (d : Nat) (b : Board) (p : Pid) (card : Card) (tr : Option CRow) (tu : Option Card),
      WInvB b → WInvB (Board.playCardAux d b p card tr tu).2 := by
  intro d
  induction d with
  | zero =>
    intro b p card tr tu hb
    exact WInvB_stem b p card tr tu hb
  | succ d ih =>
    intro b p card tr tu hb
    unfold Board.playCardAux
    dsimp only
    split
    · have hfold : ∀ (l : List Card) (acc : Except Err Events × Board), WInvB acc.2 →
          WInvB ((l.foldl
            (fun acc c =>
              match acc with
              | (.error e, bb) => (.error e, bb)
              | (.ok ev, bb) =>
                match Board.playCardAux d bb p c none none with
                | (.error e, bb') => (.error e, bb')
                | (.ok _, bb') => (.ok ev, bb'))
            acc)).2 := by
        intro l
        induction l with
        | nil => exact fun acc h => h
        | cons c rest ihl =>
          intro acc hacc
          rw [List.foldl_cons]
          apply ihl
          obtain ⟨res, bb⟩ := acc
          cases res with
          | error e => exact hacc
          | ok ev =>
            dsimp only
            have hnext := ih bb p c none none hacc
            rcases hplay : Board.playCardAux d bb p c none none with ⟨res', bb'⟩
            rw [hplay] at hnext
            cases res' with
            | error e => exact hnext
            | ok ev' => exact hnext
      apply hfold
      exact WInvB_setDeck _ _ (WInvB_stem b p card tr tu hb)
    · exact WInvB_stem b p card tr tu hb

theorem WInvB_play_card (b : Board) (p : Pid) (card : Card) (tr : Option CRow)
    (tu : Option Card) (sup : Bool) (hb : WInvB b) :
    WInvB (b.play_card p card tr tu sup).2 :=
  WInvB_playCardAux _ b p card tr tu hb

theorem board_checkAutoEnd (s : GState) : s.checkAutoEnd.board = s.board := by
  unfold GState.checkAutoEnd
  split <;> rfl

theorem board_nextPlayer (s : GState) : s.nextPlayer.board = s.board := by
  unfold GState.nextPlayer
  dsimp only
  split
  · rfl
  · split <;> rfl

theorem WInvB_startRound (s : GState) : WInvB s.startRound.board := by
  unfold GState.startRound
  exact WInvB_sync _

theorem WInvB_roundPlayCard (s : GState) (p : Pid) (card : Card) (tr : Option CRow)
    (tu : Option Card) (hb : WInvB s.board) :
    WInvB ((s.roundPlayCard p card tr tu).2).board := by
  unfold GState.roundPlayCard
  split
  · rename_i hmem
    have hplay := WInvB_play_card ((s.setP p { s.pstate p with hand := (s.pstate p).hand.erase card }).board)
      p card tr tu false hb
    rcases hp : ((s.setP p { s.pstate p with hand := (s.pstate p).hand.erase card }).board).play_card
        p card tr tu false with ⟨res, b'⟩
    rw [hp] at hplay
    cases res with
    | error e => simpa [hp] using hplay
    | ok events =>
      simp only [hp]
      rcases events.decoy_returned with _ | u
      · simp only
        split <;>
          · rw [show ∀ t : GState, t.checkAutoEnd.nextPlayer.board = t.board from
              fun t => (board_nextPlayer t.checkAutoEnd).trans (board_checkAutoEnd t)]
            exact hplay
      · simp only
        split <;> exact hplay
  · exact hb

theorem WInvB_checkRoundEnd (s : GState) (hb : WInvB s.board) :
    WInvB s.checkRoundEnd.board := by
  unfold GState.checkRoundEnd
  split
  · dsimp only
    split <;> split <;> first | exact hb | exact WInvB_startRound _
  · exact hb

theorem WInvB_roundPassTurn (s : GState) (p : Pid) (hb : WInvB s.board) :
    WInvB ((s.roundPassTurn p).2).board := by
  unfold GState.roundPassTurn
  dsimp only
  split
  · rw [board_nextPlayer, board_checkAutoEnd]
    exact hb
  · rw [board_checkAutoEnd]
    exact hb

theorem WInvB_activateLeader (b : Board) (p : Pid) (txt : String) (hb : WInvB b) :
    WInvB (activateLeader b p txt).2 := by
  unfold activateLeader
  dsimp only
  split
  · exact WInvB_sync _
  · split
    · exact WInvB_sync _
    · split
      · exact WInvB_sync _
      · split
        · exact WInvB_sync _
        · split
          · exact WInvB_sync _
          · split
            · exact WInvB_setRow _ _ _ hb (hb p _)
            · split
              · exact WInvB_setRow _ _ _ hb (hb p _)
              · split
                · exact WInvB_setRow _ _ _ hb (hb p _)
                · exact hb

/-- C8.  The weather mirror invariant — every row's weather_active equals
active_weather of its row — is preserved by Match.start_round,
Match.play_card, Match.pass_turn, Board.play_card (at either suppression
level, whatever the outcome), and leader activation. -/
theorem C8_weather_mirror (s : GState) (b : Board) (hs : WInvB s.board) (hb : WInvB b) :
    WInvB s.startRound.board ∧
    (∀ (p : Pid) (card : Card) (tr : Option CRow) (tu : Option Card),
      WInvB ((s.matchPlayCard p card tr tu).2).board) ∧
    (∀ p : Pid, WInvB ((s.matchPassTurn p).2).board) ∧
    (∀ (p : Pid) (card : Card) (tr : Option CRow) (tu : Option Card) (sup : Bool),
      WInvB (b.play_card p card tr tu sup).2) ∧
    (∀ (p : Pid) (txt : String), WInvB (activateLeader b p txt).2) := by
  refine ⟨WInvB_startRound s, ?_, ?_,
    fun p card tr tu sup => WInvB_play_card b p card tr tu sup hb,
    fun p txt => WInvB_activateLeader b p txt hb⟩
  · intro p card tr tu
    unfold GState.matchPlayCard
    split
    · have hr := WInvB_roundPlayCard s p card tr tu hs
      rcases hp : s.roundPlayCard p card tr tu with ⟨res, s'⟩
      rw [hp] at hr
      cases res with
      | error e => exact hr
      | ok u =>
        cases u
        exact WInvB_checkRoundEnd s' hr
    · exact hs
  · intro p
    unfold GState.matchPassTurn
    split
    · have hr := WInvB_roundPassTurn s p hs
      rcases hp : s.roundPassTurn p with ⟨res, s'⟩
      rw [hp] at hr
      cases res with
      | error e => exact hr
      | ok u =>
        cases u
        exact WInvB_checkRoundEnd s' hr
    · exact hs

/-- Witness for C8: the mirror invariant after a concrete frost play. -/
theorem C8_weather_mirror_witness :
    WInvB ((meleeBoard [cu10, cu5]).play_card Pid.P1
      { id := "wf", name := "Biting Frost", type := CardType.weather, row := CRow.all,
        power := 0, hero := false, abilities := [Ability.weather], combat_rows := [],
        group := none, avenged := false, transformed := false } none none false).2 :=
  (C8_weather_mirror drawnStateW (meleeBoard [cu10, cu5]) (by decide)
    (by decide)).2.2.2.1 Pid.P1 _ none none false

/-! ## Claim C2: single-owner discipline, counted by card id -/

/-- The number of cards with the given id in a list. -/
def cnt (l : List Card) (i : String) : Nat :=
  l.countP (fun c => c.id == i)

/-- The number of cards with the given id anywhere on the board: six
rows, two muster deck stores, two graveyards. -/
def bCount (b : Board) (i : String) : Nat :=
  cnt (b.rows Pid.P1 BRow.melee).cards i + cnt (b.rows Pid.P1 BRow.ranged).cards i +
  cnt (b.rows Pid.P1 BRow.siege).cards i + cnt (b.rows Pid.P2 BRow.melee).cards i +
  cnt (b.rows Pid.P2 BRow.ranged).cards i + cnt (b.rows Pid.P2 BRow.siege).cards i +
  cnt (b.decks Pid.P1) i + cnt (b.decks Pid.P2) i +
  cnt (b.graveyards Pid.P1) i + cnt (b.graveyards Pid.P2) i

/-- The number of cards with the given id anywhere in the game state:
both players' hands, draw decks and (unused) player graveyards, plus the
board. -/
def sCount (s : GState) (i : String) : Nat :=
  cnt (s.pstate Pid.P1).hand i + cnt (s.pstate Pid.P1).deck i +
  cnt (s.pstate Pid.P1).graveyard i +
  cnt (s.pstate Pid.P2).hand i + cnt (s.pstate Pid.P2).deck i +
  cnt (s.pstate Pid.P2).graveyard i + bCount s.board i

/-- Single ownership, as counted by id: no card id occurs in more than
one place across all containers.  A card that is present somewhere
therefore belongs to exactly one container. -/
def SingleOwner (s : GState) : Prop := ∀ i, sCount s i ≤ 1

/-- All cards of a state in one list, for deciding SingleOwner. -/
def GState.allCards (s : GState) : List Card :=
  (s.pstate Pid.P1).hand ++ (s.pstate Pid.P1).deck ++ (s.pstate Pid.P1).graveyard ++
  (s.pstate Pid.P2).hand ++ (s.pstate Pid.P2).deck ++ (s.pstate Pid.P2).graveyard ++
  (s.board.rows Pid.P1 BRow.melee).cards ++ (s.board.rows Pid.P1 BRow.ranged).cards ++
  (s.board.rows Pid.P1 BRow.siege).cards ++ (s.board.rows Pid.P2 BRow.melee).cards ++
  (s.board.rows Pid.P2 BRow.ranged).cards ++ (s.board.rows Pid.P2 BRow.siege).cards ++
  s.board.decks Pid.P1 ++ s.board.decks Pid.P2 ++
  s.board.graveyards Pid.P1 ++ s.board.graveyards Pid.P2

theorem count_map_id (l : List Card) (i : String) :
    (l.map (fun c => c.id)).count i = cnt l i := by
  induction l with
  | nil => rfl
  | cons c t ih =>
    unfold cnt at ih ⊢
    rw [List.map_cons, List.count_cons, List.countP_cons, ih]

theorem sCount_eq_allCards (s : GState) (i : String) :
    sCount s i = cnt s.allCards i := by
  unfold sCount bCount GState.allCards cnt
  simp only [List.countP_append]
  omega

/-- SingleOwner is exactly duplicate-freedom of the ids of all cards. -/
theorem singleOwner_iff_nodup (s : GState) :
    SingleOwner s ↔ (s.allCards.map (fun c => c.id)).Nodup := by
  rw [List.nodup_iff_count_le_one]
  constructor
  · intro h a
    rw [count_map_id]
    rw [← sCount_eq_allCards]
    exact h a
  · intro h i
    rw [sCount_eq_allCards, ← count_map_id]
    exact h i

/-! ### List-level counting lemmas -/

theorem cnt_append (l₁ l₂ : List Card) (i : String) :
    cnt (l₁ ++ l₂) i = cnt l₁ i + cnt l₂ i := by
  unfold cnt
  rw [List.countP_append]

theorem cnt_erase_mem {l : List Card} {c : Card} (h : c ∈ l) (i : String) :
    cnt (l.erase c) i + (if c.id = i then 1 else 0) = cnt l i := by
  obtain ⟨l₁, l₂, _, hdecomp, herase⟩ := List.exists_erase_eq h
  rw [herase, hdecomp, cnt_append, cnt_append]
  unfold cnt
  rw [List.countP_cons]
  simp only [beq_iff_eq]
  omega

theorem cnt_erase_le (l : List Card) (c : Card) (i : String) :
    cnt (l.erase c) i ≤ cnt l i := by
  unfold cnt
  exact List.Sublist.countP_le _ (List.erase_sublist c l)

theorem cnt_filter_partition (l : List Card) (q : Card → Bool) (i : String) :
    cnt (l.filter q) i + cnt (l.filter (fun c => !(q c))) i = cnt l i := by
  induction l with
  | nil => rfl
  | cons c t ih =>
    unfold cnt at ih ⊢
    rcases hq : q c with _ | _ <;>
      simp only [List.filter_cons, hq, Bool.not_true, Bool.not_false, if_true, if_false,
        Bool.false_eq_true, Bool.true_eq_false, List.countP_cons] <;>
      omega

theorem cnt_perm {l l' : List Card} (h : List.Perm l l') (i : String) :
    cnt l i = cnt l' i := by
  unfold cnt
  exact h.countP_eq _

theorem cnt_take_drop (l : List Card) (n : Nat) (i : String) :
    cnt (l.take n) i + cnt (l.drop n) i = cnt l i := by
  rw [← cnt_append, List.take_append_drop]

/-! ### Board-level counting lemmas -/

theorem cnt_singleton (c : Card) (i : String) :
    cnt [c] i = if c.id = i then 1 else 0 := by
  unfold cnt
  rw [List.countP_cons]
  simp [beq_iff_eq]

/-- Exchange identity for replacing one row. -/
theorem bCount_setRow (b : Board) (p : Pid) (r : BRow) (rs : RowState) (i : String) :
    bCount (b.setRow p r rs) i + cnt (b.rows p r).cards i = bCount b i + cnt rs.cards i := by
  cases p <;> cases r <;> (simp only [bCount, Board.setRow]; simp; omega)

theorem bCount_pushGrave (b : Board) (p : Pid) (c : Card) (i : String) :
    bCount (b.pushGrave p c) i = bCount b i + (if c.id = i then 1 else 0) := by
  cases p <;>
    (simp only [bCount, Board.pushGrave]; simp [cnt_append, cnt_singleton]; omega)

theorem bCount_setGrave (b : Board) (p : Pid) (l : List Card) (i : String) :
    bCount (b.setGrave p l) i + cnt (b.graveyards p) i = bCount b i + cnt l i := by
  cases p <;> (simp only [bCount, Board.setGrave]; simp; omega)

theorem bCount_setDeck (b : Board) (p : Pid) (l : List Card) (i : String) :
    bCount (b.setDeck p l) i + cnt (b.decks p) i = bCount b i + cnt l i := by
  cases p <;> (simp only [bCount, Board.setDeck]; simp; omega)

theorem bCount_sync (b : Board) (i : String) : bCount b.sync i = bCount b i := rfl

theorem bCount_applyWeather (b : Board) (card : Card) (i : String) :
    bCount (b.applyWeather card) i = bCount b i := by
  unfold Board.applyWeather
  dsimp only
  split <;> rfl

/-- RowState.add appends one card. -/
theorem bCount_addRow (b : Board) (p : Pid) (r : BRow) (c : Card) (i : String) :
    bCount (b.setRow p r ((b.rows p r).add c)) i =
      bCount b i + (if c.id = i then 1 else 0) := by
  have h := bCount_setRow b p r ((b.rows p r).add c) i
  rw [show ((b.rows p r).add c).cards = (b.rows p r).cards ++ [c] from rfl,
    cnt_append, cnt_singleton] at h
  omega

/-- The on-death handler books the removed card exactly once (to the
graveyard, or back to the row for an unavenged Avenger). -/
theorem bCount_onUnitRemoved (b : Board) (p : Pid) (c : Card) (r : BRow) (i : String) :
    bCount (b.onUnitRemoved p c r) i = bCount b i + (if c.id = i then 1 else 0) := by
  unfold Board.onUnitRemoved
  dsimp only
  split
  · rw [bCount_sync, bCount_addRow]
    have hmem : ({ c with avenged := true } : Card) ∈
        b.graveyards p ++ [{ c with avenged := true }] := by simp
    have h1 := cnt_erase_mem hmem i
    rw [cnt_append, cnt_singleton] at h1
    have h2 := bCount_setGrave b p ((b.graveyards p ++ [{ c with avenged := true }]).erase
      { c with avenged := true }) i
    simp only [show ({ c with avenged := true } : Card).id = c.id from rfl] at h1 ⊢
    omega
  · exact bCount_pushGrave b p c i

theorem bCount_removeStep (bb : Board) (t : Card × Pid × BRow) (i : String) :
    bCount (removeStep bb t) i = bCount bb i := by
  obtain ⟨c, p, r⟩ := t
  unfold removeStep RowState.remove
  dsimp only
  by_cases hmem : c ∈ (bb.rows p r).cards
  · rw [if_pos (by simpa using hmem)]
    show bCount ((bb.setRow p r
      { bb.rows p r with cards := ((bb.rows p r).cards).erase c }).onUnitRemoved p c r) i =
        bCount bb i
    rw [bCount_onUnitRemoved]
    have h1 := bCount_setRow bb p r
      { bb.rows p r with cards := ((bb.rows p r).cards).erase c } i
    rw [show ({ bb.rows p r with cards := ((bb.rows p r).cards).erase c } :
      RowState).cards = ((bb.rows p r).cards).erase c from rfl] at h1
    have h2 := cnt_erase_mem hmem i
    omega
  · rw [if_neg (by simpa using hmem)]
    show bCount (bb.setRow p r
      { bb.rows p r with cards := ((bb.rows p r).cards).erase c }) i = bCount bb i
    have herase : ((bb.rows p r).cards).erase c = (bb.rows p r).cards :=
      List.erase_of_not_mem hmem
    have h1 := bCount_setRow bb p r
      { bb.rows p r with cards := ((bb.rows p r).cards).erase c } i
    rw [show ({ bb.rows p r with cards := ((bb.rows p r).cards).erase c } :
      RowState).cards = ((bb.rows p r).cards).erase c from rfl] at h1
    rw [herase] at h1 ⊢
    omega

theorem bCount_removeFold (vs : List (Card × Pid × BRow)) :
    ∀ (bb : Board) (i : String), bCount (vs.foldl removeStep bb) i = bCount bb i := by
  induction vs with
  | nil => exact fun bb i => rfl
  | cons t rest ih =>
    intro bb i
    rw [List.foldl_cons, ih, bCount_removeStep]

/-- Scorch moves cards between containers but never duplicates or drops
one. -/
theorem bCount_applyScorch (b : Board) (i : String) :
    bCount b.applyScorch i = bCount b i := by
  obtain ⟨_, hperm, _, hdecks, hgys, _⟩ := applyScorchScan_spec b
  have hscan : bCount b.applyScorchScan.2 i = bCount b i := by
    unfold bCount
    rw [cnt_perm (hperm Pid.P1 BRow.melee) i, cnt_perm (hperm Pid.P1 BRow.ranged) i,
      cnt_perm (hperm Pid.P1 BRow.siege) i, cnt_perm (hperm Pid.P2 BRow.melee) i,
      cnt_perm (hperm Pid.P2 BRow.ranged) i, cnt_perm (hperm Pid.P2 BRow.siege) i,
      hdecks, hgys]
  unfold Board.applyScorch
  rw [bCount_removeFold, hscan]

/-! ### Play-card counting bounds -/

/-- The Medic candidate fold only ever selects a graveyard member. -/
theorem medicFold_mem (gy : List Card) :
    ∀ (acc : Int × Option Card) (res : Card),
      (gy.foldl
        (fun (acc : Int × Option Card) c =>
          if c.is_unit ∧ ¬ c.is_hero ∧ c.base_power > acc.1 then (c.base_power, some c)
          else acc) acc).2 = some res →
      res ∈ gy ∨ acc.2 = some res := by
  induction gy with
  | nil => exact fun acc res h => Or.inr h
  | cons c t ih =>
    intro acc res h
    rw [List.foldl_cons] at h
    rcases ih _ res h with hmem | hacc
    · exact Or.inl (List.mem_cons_of_mem c hmem)
    · by_cases hc : c.is_unit ∧ ¬ c.is_hero ∧ c.base_power > acc.1
      · rw [if_pos hc] at hacc
        dsimp only at hacc
        rw [Option.some.injEq] at hacc
        exact Or.inl (hacc ▸ List.mem_cons_self c t)
      · rw [if_neg hc] at hacc
        exact Or.inr hacc

/-- The one card id a play can mint beyond the played card itself: the
":t"-suffixed id of a transformed Mardroeme target. -/
def mardExtra (target_unit : Option Card) (i : String) : Nat :=
  match target_unit with
  | some t => if t.id ++ ":t" = i then 1 else 0
  | none => 0

theorem bCount_stemWeather (b : Board) (player : Pid) (card : Card) (i : String) :
    bCount (stemWeather b player card).board i ≤
      bCount b i + (if card.id = i then 1 else 0) := by
  unfold stemWeather
  dsimp only
  rw [bCount_pushGrave, bCount_applyWeather]

theorem bCount_stemScorch (b : Board) (player : Pid) (card : Card) (i : String) :
    bCount (stemScorch b player card).board i ≤
      bCount b i + (if card.id = i then 1 else 0) := by
  unfold stemScorch
  dsimp only
  rw [bCount_pushGrave, bCount_applyScorch]

theorem bCount_stemDecoy (b : Board) (player : Pid) (card : Card) (cr : CRow)
    (tu : Option Card) (i : String) :
    bCount (stemDecoy b player card cr tu).board i ≤
      bCount b i + (if card.id = i then 1 else 0) := by
  unfold stemDecoy RowState.remove
  cases tu with
  | none =>
    dsimp only
    exact Nat.le_add_right _ _
  | some t =>
    dsimp only
    rcases hfind : [BRow.melee, BRow.ranged, BRow.siege].find?
        (fun r => t ∈ (b.rows player r).cards) with _ | r
    · dsimp only
      exact Nat.le_add_right _ _
    · dsimp only
      show bCount ((b.setRow player r
          { b.rows player r with cards := (b.rows player r).cards.erase t }).setRow player
            (cr.toBOr (b.rows player r).row)
            (((b.setRow player r
              { b.rows player r with cards := (b.rows player r).cards.erase t }).rows player
                (cr.toBOr (b.rows player r).row)).add card)) i ≤
        bCount b i + (if card.id = i then 1 else 0)
      rw [bCount_addRow]
      have h1 := bCount_setRow b player r
        { b.rows player r with cards := (b.rows player r).cards.erase t } i
      rw [show ({ b.rows player r with cards := (b.rows player r).cards.erase t } :
        RowState).cards = (b.rows player r).cards.erase t from rfl] at h1
      have h2 := cnt_erase_le (b.rows player r).cards t i
      omega

theorem bCount_stemMardroeme (b : Board) (player : Pid) (card : Card)
    (tu : Option Card) (i : String) :
    bCount (stemMardroeme b player card tu).board i ≤
      bCount b i + (if card.id = i then 1 else 0) + mardExtra tu i := by
  unfold stemMardroeme RowState.remove
  cases tu with
  | none =>
    dsimp only
    omega
  | some t =>
    dsimp only
    rcases hfind : [BRow.melee, BRow.ranged, BRow.siege].find?
        (fun r => t ∈ (b.rows player r).cards) with _ | r
    · dsimp only
      rw [bCount_sync, bCount_pushGrave]
      omega
    · dsimp only
      by_cases hb : Ability.berserker ∈ t.abilities
      · rw [if_pos hb]
        dsimp only
        show bCount ((((b.setRow player r
            { b.rows player r with cards := (b.rows player r).cards.erase t }).setRow player r
              (((b.setRow player r
                { b.rows player r with cards := (b.rows player r).cards.erase t }).rows player
                  r).add (transformedCard t r))).pushGrave player card).sync) i ≤
          bCount b i + (if card.id = i then 1 else 0) + mardExtra (some t) i
        rw [bCount_sync, bCount_pushGrave, bCount_addRow]
        have h1 := bCount_setRow b player r
          { b.rows player r with cards := (b.rows player r).cards.erase t } i
        rw [show ({ b.rows player r with cards := (b.rows player r).cards.erase t } :
          RowState).cards = (b.rows player r).cards.erase t from rfl] at h1
        have h2 := cnt_erase_le (b.rows player r).cards t i
        rw [show (transformedCard t r).id = t.id ++ ":t" from rfl,
          show mardExtra (some t) i = (if t.id ++ ":t" = i then 1 else 0) from rfl]
        omega
      · rw [if_neg hb]
        dsimp only
        rw [bCount_sync, bCount_pushGrave]
        omega

theorem bCount_stemSpy (b : Board) (player : Pid) (card : Card) (cr : CRow) (i : String) :
    bCount (stemSpy b player card cr).board i ≤
      bCount b i + (if card.id = i then 1 else 0) := by
  unfold stemSpy
  dsimp only
  rcases hch : (if card.combat_rows ≠ [] ∧ cr = CRow.all then b.bestRowForUnit player.opp card
      else Except.ok cr) with e | cr2
  · dsimp only
    exact Nat.le_add_right _ _
  · dsimp only
    by_cases hbat : cr2.isBattle = true
    · rw [if_pos hbat]
      dsimp only
      rw [bCount_sync, bCount_addRow]
    · rw [if_neg hbat]
      exact Nat.le_add_right _ _

theorem bCount_stemHorn (b : Board) (player : Pid) (card : Card) (cr : CRow) (i : String) :
    bCount (stemHorn b player card cr).board i ≤
      bCount b i + (if card.id = i then 1 else 0) := by
  unfold stemHorn
  by_cases hbat : cr.isBattle = true
  · rw [if_pos hbat]
    dsimp only
    show bCount (((b.setRow player (cr.toBOr BRow.melee)
        { b.rows player (cr.toBOr BRow.melee) with horn_active := true }).sync).pushGrave
          player card) i ≤ bCount b i + (if card.id = i then 1 else 0)
    rw [bCount_pushGrave, bCount_sync]
    have h1 := bCount_setRow b player (cr.toBOr BRow.melee)
      { b.rows player (cr.toBOr BRow.melee) with horn_active := true } i
    rw [show ({ b.rows player (cr.toBOr BRow.melee) with horn_active := true } :
      RowState).cards = (b.rows player (cr.toBOr BRow.melee)).cards from rfl] at h1
    omega
  · rw [if_neg hbat]
    exact Nat.le_add_right _ _

theorem bCount_stemUnit (b : Board) (player : Pid) (card : Card) (cr : CRow) (i : String) :
    bCount (stemUnit b player card cr).board i ≤
      bCount b i + (if card.id = i then 1 else 0) := by
  unfold stemUnit
  dsimp only
  rcases hch : (if card.combat_rows ≠ [] ∧ cr = CRow.all then b.bestRowForUnit player card
      else Except.ok cr) with e | cr2
  · dsimp only
    exact Nat.le_add_right _ _
  · dsimp only
    by_cases hbat : cr2.isBattle = true
    · rw [if_pos hbat]
      by_cases hmed : Ability.medic ∈ card.abilities ∧ card.is_unit = true
      · rw [if_pos hmed]
        set b2 := (b.setRow player (cr2.toBOr BRow.melee)
          ((b.rows player (cr2.toBOr BRow.melee)).add card)).sync with hb2
        have hb2c : bCount b2 i = bCount b i + (if card.id = i then 1 else 0) := by
          rw [hb2, bCount_sync, bCount_addRow]
        rcases hbest : ((b2.graveyards player).foldl
            (fun (acc : Int × Option Card) c =>
              if c.is_unit ∧ ¬ c.is_hero ∧ c.base_power > acc.1 then (c.base_power, some c)
              else acc) (-1, none)).2 with _ | res
        · dsimp only
          omega
        · dsimp only
          have hmem : res ∈ b2.graveyards player := by
            rcases medicFold_mem (b2.graveyards player) (-1, none) res hbest with h | h
            · exact h
            · exact absurd h (by simp)
          have hres := cnt_erase_mem hmem i
          have h3 := bCount_setGrave b2 player ((b2.graveyards player).erase res) i
          set b3 := b2.setGrave player ((b2.graveyards player).erase res) with hb3
          rcases hrr : (if res.combat_rows ≠ [] ∧ res.row = CRow.all then
              b3.bestRowForUnit player res else Except.ok res.row) with e | rr
          · dsimp only
            omega
          · dsimp only
            rcases htb : toBRow rr with e | rbr
            · dsimp only
              omega
            · dsimp only
              rw [bCount_addRow]
              omega
      · rw [if_neg hmed]
        dsimp only
        rw [bCount_sync, bCount_addRow]
    · rw [if_neg hbat]
      exact Nat.le_add_right _ _

/-- One pass of the non-recursive play dispatch adds at most one copy of
the played card's id (plus possibly the minted Mardroeme transform id)
to the board containers. -/
theorem bCount_stem (b : Board) (player : Pid) (card : Card) (cr : CRow)
    (tu : Option Card) (i : String) :
    bCount (playCardStemCR b player card cr tu).board i ≤
      bCount b i + (if card.id = i then 1 else 0) + mardExtra tu i := by
  unfold playCardStemCR
  by_cases h1 : Ability.weather ∈ card.abilities
  · rw [if_pos h1]
    exact le_trans (bCount_stemWeather b player card i) (Nat.le_add_right _ _)
  · rw [if_neg h1]
    by_cases h2 : Ability.scorch ∈ card.abilities ∧ card.is_unit = false
    · rw [if_pos h2]
      exact le_trans (bCount_stemScorch b player card i) (Nat.le_add_right _ _)
    · rw [if_neg h2]
      by_cases h3 : Ability.decoy ∈ card.abilities ∧ card.is_unit = false
      · rw [if_pos h3]
        exact le_trans (bCount_stemDecoy b player card cr tu i) (Nat.le_add_right _ _)
      · rw [if_neg h3]
        by_cases h4 : Ability.mardroeme ∈ card.abilities ∧ card.is_unit = false
        · rw [if_pos h4]
          exact bCount_stemMardroeme b player card tu i
        · rw [if_neg h4]
          by_cases h5 : Ability.spy ∈ card.abilities ∧ card.is_unit = true
          · rw [if_pos h5]
            exact le_trans (bCount_stemSpy b player card cr i) (Nat.le_add_right _ _)
          · rw [if_neg h5]
            by_cases h6 : Ability.horn ∈ card.abilities ∧ card.is_unit = false
            · rw [if_pos h6]
              exact le_trans (bCount_stemHorn b player card cr i) (Nat.le_add_right _ _)
            · rw [if_neg h6]
              exact le_trans (bCount_stemUnit b player card cr i) (Nat.le_add_right _ _)

theorem bCount_playCardStem (b : Board) (p : Pid) (card : Card) (tr : Option CRow)
    (tu : Option Card) (i : String) :
    bCount (b.playCardStem p card tr tu).board i ≤
      bCount b i + (if card.id = i then 1 else 0) + mardExtra tu i := by
  unfold Board.playCardStem
  exact bCount_stem b p card (tr.getD card.row) tu i

theorem cnt_nil (i : String) : cnt [] i = 0 := rfl

theorem cnt_cons (c : Card) (t : List Card) (i : String) :
    cnt (c :: t) i = cnt t i + (if c.id = i then 1 else 0) := by
  unfold cnt
  rw [List.countP_cons]
  simp only [beq_iff_eq]

/-- Board.play_card, at any muster depth, adds at most one copy of the
played card's id (plus possibly the minted Mardroeme transform id) to the
board containers; every nested Muster play spends a deck copy first. -/
theorem bCount_playCardAux (d : Nat) : ∀ (b : Board) (p : Pid) (card : Card)
    (tr : Option CRow) (tu : Option Card) (i : String),
    bCount (Board.playCardAux d b p card tr tu).2 i ≤
      bCount b i + (if card.id = i then 1 else 0) + mardExtra tu i := by
  induction d with
  | zero =>
    intro b p card tr tu i
    exact bCount_playCardStem b p card tr tu i
  | succ d ih =>
    intro b p card tr tu i
    unfold Board.playCardAux
    dsimp only
    by_cases hf : (b.playCardStem p card tr tu).fell = true ∧ Ability.muster ∈ card.abilities
    · rw [if_pos hf]
      have hfold : ∀ (l : List Card) (acc : Except Err Events × Board),
          bCount ((l.foldl
            (fun acc c =>
              match acc with
              | (.error e, bb) => (.error e, bb)
              | (.ok ev, bb) =>
                match Board.playCardAux d bb p c none none with
                | (.error e, bb') => (.error e, bb')
                | (.ok _, bb') => (.ok ev, bb'))
            acc)).2 i ≤ cnt l i + bCount acc.2 i := by
        intro l
        induction l with
        | nil =>
          intro acc
          rw [List.foldl_nil, cnt_nil]
          omega
        | cons c rest ihl =>
          intro acc
          rw [List.foldl_cons, cnt_cons]
          refine le_trans (ihl _) ?_
          have hstep : bCount ((match acc with
              | (.error e, bb) => (.error e, bb)
              | (.ok ev, bb) =>
                match Board.playCardAux d bb p c none none with
                | (.error e, bb') => (.error e, bb')
                | (.ok _, bb') => (.ok ev, bb')) :
                Except Err Events × Board).2 i ≤
              bCount acc.2 i + (if c.id = i then 1 else 0) := by
            obtain ⟨res, bb⟩ := acc
            cases res with
            | error e =>
              dsimp only
              exact Nat.le_add_right _ _
            | ok ev =>
              dsimp only
              rcases hplay : Board.playCardAux d bb p c none none with ⟨res', bb'⟩
              have hball := ih bb p c none none i
              rw [hplay] at hball
              rw [show mardExtra none i = 0 from rfl] at hball
              cases res' with
              | error e =>
                dsimp only
                dsimp only at hball
                omega
              | ok ev' =>
                dsimp only
                dsimp only at hball
                omega
          omega
      refine le_trans (hfold
        (((b.playCardStem p card tr tu).board.decks p).filter (musterMatches (pyGroup card)))
        ((b.playCardStem p card tr tu).res,
          (b.playCardStem p card tr tu).board.setDeck p
            (((b.playCardStem p card tr tu).board.decks p).filter
              (fun c => !(musterMatches (pyGroup card) c))))) ?_
      dsimp only
      have hpart := cnt_filter_partition ((b.playCardStem p card tr tu).board.decks p)
        (musterMatches (pyGroup card)) i
      have hdeck := bCount_setDeck (b.playCardStem p card tr tu).board p
        (((b.playCardStem p card tr tu).board.decks p).filter
          (fun c => !(musterMatches (pyGroup card) c))) i
      have hstem := bCount_playCardStem b p card tr tu i
      omega
    · rw [if_neg hf]
      exact bCount_playCardStem b p card tr tu i

/-- Board.play_card books at most one new copy of the played card's id
(plus possibly the Mardroeme transform id). -/
theorem bCount_play_card (b : Board) (p : Pid) (card : Card) (tr : Option CRow)
    (tu : Option Card) (sup : Bool) (i : String) :
    bCount (b.play_card p card tr tu sup).2 i ≤
      bCount b i + (if card.id = i then 1 else 0) + mardExtra tu i := by
  unfold Board.play_card
  exact bCount_playCardAux _ b p card tr tu i

/-! ### Game-state counting lemmas -/

/-- Exchange identity for replacing one hand. -/
theorem sCount_setHand (s : GState) (p : Pid) (l : List Card) (i : String) :
    sCount (s.setP p { s.pstate p with hand := l }) i + cnt (s.pstate p).hand i =
      sCount s i + cnt l i := by
  cases p <;> (simp only [sCount, GState.setP]; simp; omega)

/-- Player.draw moves cards deck-to-hand without changing the count. -/
theorem sCount_draw (s : GState) (p : Pid) (n : Nat) (i : String) :
    sCount (s.setP p ((s.pstate p).draw n)) i = sCount s i := by
  cases p
  · have h := cnt_take_drop (s.pstate Pid.P1).deck n i
    simp only [sCount, GState.setP, PState.draw]
    simp [cnt_append]
    omega
  · have h := cnt_take_drop (s.pstate Pid.P2).deck n i
    simp only [sCount, GState.setP, PState.draw]
    simp [cnt_append]
    omega

theorem sCount_setPassed (s : GState) (p : Pid) (i : String) :
    sCount (s.setP p { s.pstate p with passed := true }) i = sCount s i := by
  cases p <;> (simp only [sCount, GState.setP]; simp)

theorem sCount_setBoard (s : GState) (b : Board) (i : String) :
    sCount { s with board := b } i + bCount s.board i = sCount s i + bCount b i := by
  simp only [sCount]
  omega

theorem sCount_checkAutoEnd (s : GState) (i : String) :
    sCount s.checkAutoEnd i = sCount s i := by
  unfold GState.checkAutoEnd
  split <;> rfl

theorem sCount_nextPlayer (s : GState) (i : String) :
    sCount s.nextPlayer i = sCount s i := by
  unfold GState.nextPlayer
  dsimp only
  split
  · rfl
  · split <;> rfl

/-- Round cleanup moves every row's cards to the owner's graveyard,
keeping counts. -/
theorem bCount_cleanupAfterRound (b : Board) (i : String) :
    bCount b.cleanupAfterRound i = bCount b i := by
  unfold Board.cleanupAfterRound
  have hstep : ∀ (l : List (Pid × BRow)) (bb : Board),
      bCount ((l.foldl
        (fun bb pr =>
          match pr with
          | (p, r) =>
            let rs := bb.rows p r
            let bb1 := if rs.cards ≠ [] then bb.setGrave p (bb.graveyards p ++ rs.cards) else bb
            bb1.setRow p r { rs with cards := [], horn_active := false, weather_active := false })
        bb)) i = bCount bb i := by
    intro l
    induction l with
    | nil => exact fun bb => rfl
    | cons pr rest ihl =>
      intro bb
      rw [List.foldl_cons, ihl]
      obtain ⟨p, r⟩ := pr
      dsimp only
      by_cases hne : (bb.rows p r).cards ≠ []
      · rw [if_pos hne]
        have hg := bCount_setGrave bb p (bb.graveyards p ++ (bb.rows p r).cards) i
        rw [cnt_append] at hg
        have hr := bCount_setRow (bb.setGrave p (bb.graveyards p ++ (bb.rows p r).cards)) p r
          { row := (bb.rows p r).row, cards := [], weather_active := false,
            horn_active := false } i
        have hrows : cnt ((bb.setGrave p
            (bb.graveyards p ++ (bb.rows p r).cards)).rows p r).cards i =
            cnt (bb.rows p r).cards i := rfl
        have hnil : cnt ({ row := (bb.rows p r).row, cards := [], weather_active := false, horn_active := false } : RowState).cards i = 0 := rfl
        rw [hrows, hnil] at hr
        omega
      · rw [if_neg hne]
        have hcards : (bb.rows p r).cards = [] := not_not.mp hne
        have hr := bCount_setRow bb p r
          { row := (bb.rows p r).row, cards := [], weather_active := false,
            horn_active := false } i
        have hnil : cnt ({ row := (bb.rows p r).row, cards := [], weather_active := false, horn_active := false } : RowState).cards i = 0 := rfl
        rw [hnil, hcards, cnt_nil] at hr
        omega
  exact hstep scorchPairs b

theorem sCount_startRound (s : GState) (i : String) :
    sCount s.startRound i = sCount s i := rfl

/-- The common tail of _check_round_end: draw one, clean the board, start
the next round, None of which changes any count. -/
theorem sCount_endChain (s1 : GState) (hr : Bool) (t : Pid) (f : Bool) (rn : Nat)
    (w : Pid → Nat) (lv : Pid → Int) (i : String) :
    sCount (GState.startRound
      { pstate := fun p => (s1.pstate p).draw 1, board := s1.board.cleanupAfterRound,
        hasRound := hr, turn := t, finished := f, round_number := rn,
        wins := w, lives := lv }) i = sCount s1 i := by
  rw [sCount_startRound]
  have h1 := cnt_take_drop (s1.pstate Pid.P1).deck 1 i
  have h2 := cnt_take_drop (s1.pstate Pid.P2).deck 1 i
  have h4 := bCount_cleanupAfterRound s1.board i
  simp only [sCount, PState.draw]
  simp only [cnt_append]
  omega

theorem sCount_checkRoundEnd (s : GState) (i : String) :
    sCount s.checkRoundEnd i = sCount s i := by
  unfold GState.checkRoundEnd
  split
  · dsimp only
    rcases hw : s.roundWinner with _ | w <;> dsimp only
    · split
      · rfl
      · exact sCount_endChain s _ _ _ _ _ _ i
    · by_cases hstop : ((if Pid.P1 = w then s.wins Pid.P1 + 1 else s.wins Pid.P1) ≥ 2 ∨
          (if Pid.P2 = w then s.wins Pid.P2 + 1 else s.wins Pid.P2) ≥ 2) ∨
          s.round_number ≥ 3
      · rw [if_pos hstop]
        rfl
      · rw [if_neg hstop]
        exact sCount_endChain s _ _ _ _ _ _ i
  · rfl

/-- Round.play_card can only mint the Mardroeme transform id: every other
id count is preserved or (for a vanished Decoy) decreased. -/
theorem sCount_roundPlayCard (s : GState) (p : Pid) (card : Card) (tr : Option CRow)
    (tu : Option Card) (i : String) :
    sCount (s.roundPlayCard p card tr tu).2 i ≤ sCount s i + mardExtra tu i := by
  unfold GState.roundPlayCard
  split
  · rename_i hmem
    have hb := bCount_play_card
      ((s.setP p { s.pstate p with hand := (s.pstate p).hand.erase card }).board)
      p card tr tu false i
    have hb' : bCount ((s.setP p { s.pstate p with hand := (s.pstate p).hand.erase card }).board.play_card p card tr tu false).2 i ≤ bCount s.board i + (if card.id = i then 1 else 0) + mardExtra tu i := hb
    rcases hp : (s.setP p { s.pstate p with hand := (s.pstate p).hand.erase card }).board.play_card
        p card tr tu false with ⟨res, b'⟩
    rw [hp] at hb'
    dsimp only at hb'
    have h1 := sCount_setHand s p ((s.pstate p).hand.erase card) i
    have h2 := cnt_erase_mem hmem i
    have hfin : ∀ X : GState, X.board = s.board →
        sCount { X with board := b' } i ≤
          sCount X i + (if card.id = i then 1 else 0) + mardExtra tu i := by
      intro X hXb
      have h3 := sCount_setBoard X b' i
      rw [hXb] at h3
      omega
    cases res with
    | error e =>
      simp only [hp]
      refine le_trans (hfin
        (s.setP p { s.pstate p with hand := (s.pstate p).hand.erase card }) rfl) ?_
      omega
    | ok events =>
      simp only [hp]
      rcases events.decoy_returned with _ | u
      · simp only
        split
        ·
          rw [sCount_nextPlayer, sCount_checkAutoEnd, sCount_draw]
          refine le_trans (hfin
            (s.setP p { s.pstate p with hand := (s.pstate p).hand.erase card }) rfl) ?_
          omega
        ·
          rw [sCount_nextPlayer, sCount_checkAutoEnd]
          refine le_trans (hfin
            (s.setP p { s.pstate p with hand := (s.pstate p).hand.erase card }) rfl) ?_
          omega
      · simp only
        split
        ·
          rw [sCount_draw]
          refine le_trans (hfin
            (s.setP p { s.pstate p with hand := (s.pstate p).hand.erase card }) rfl) ?_
          omega
        ·
          refine le_trans (hfin
            (s.setP p { s.pstate p with hand := (s.pstate p).hand.erase card }) rfl) ?_
          omega
  · exact Nat.le_add_right _ _

theorem sCount_roundPassTurn (s : GState) (p : Pid) (i : String) :
    sCount (s.roundPassTurn p).2 i = sCount s i := by
  unfold GState.roundPassTurn
  dsimp only
  split
  · dsimp only
    rw [sCount_nextPlayer, sCount_checkAutoEnd]
    exact sCount_setPassed s p i
  · dsimp only
    rw [sCount_checkAutoEnd]
    exact sCount_setPassed s p i

/-- Match.play_card can only mint the Mardroeme transform id. -/
theorem sCount_matchPlayCard (s : GState) (p : Pid) (card : Card) (tr : Option CRow)
    (tu : Option Card) (i : String) :
    sCount (s.matchPlayCard p card tr tu).2 i ≤ sCount s i + mardExtra tu i := by
  unfold GState.matchPlayCard
  split
  · have h := sCount_roundPlayCard s p card tr tu i
    rcases hrp : s.roundPlayCard p card tr tu with ⟨res, s'⟩
    rw [hrp] at h
    dsimp only at h
    cases res with
    | ok u =>
      cases u
      dsimp only
      rw [sCount_checkRoundEnd]
      exact h
    | error e =>
      dsimp only
      exact h
  · exact Nat.le_add_right _ _

/-- Match.pass_turn preserves every id count. -/
theorem sCount_matchPassTurn (s : GState) (p : Pid) (i : String) :
    sCount (s.matchPassTurn p).2 i = sCount s i := by
  unfold GState.matchPassTurn
  split
  · have h := sCount_roundPassTurn s p i
    rcases hrp : s.roundPassTurn p with ⟨res, s'⟩
    rw [hrp] at h
    dsimp only at h
    cases res with
    | ok u =>
      cases u
      dsimp only
      rw [sCount_checkRoundEnd]
      exact h
    | error e =>
      dsimp only
      exact h
  · rfl

/-! ### Claim C2: statement, counterexample, witness -/

/-- C2, amended.  Single ownership counted by card id is preserved by
Match.play_card and Match.pass_turn, provided the Mardroeme transform id
(target id ++ ":t") is fresh: no play ever duplicates a card, although a
Decoy played at a target absent from every row silently drops the decoy
from all containers (and a successful Decoy raises AttributeError before
the unit reaches the hand), so cards can vanish, never multiply. -/
theorem C2_single_owner_amended (s : GState) (p : Pid) (card : Card)
    (tr : Option CRow) (tu : Option Card)
    (hs : SingleOwner s)
    (hfresh : ∀ t, tu = some t → sCount s (t.id ++ ":t") = 0) :
    SingleOwner (s.matchPlayCard p card tr tu).2 ∧
    SingleOwner (s.matchPassTurn p).2 := by
  constructor
  · intro i
    have h := sCount_matchPlayCard s p card tr tu i
    rcases tu with _ | t
    · rw [show mardExtra none i = 0 from rfl] at h
      have hsi := hs i
      omega
    · by_cases hid : t.id ++ ":t" = i
      · have h0 := hfresh t rfl
        rw [hid] at h0
        rw [show mardExtra (some t) i = (if t.id ++ ":t" = i then 1 else 0) from rfl,
          if_pos hid] at h
        omega
      · rw [show mardExtra (some t) i = (if t.id ++ ":t" = i then 1 else 0) from rfl,
          if_neg hid] at h
        have hsi := hs i
        omega
  · intro i
    rw [sCount_matchPassTurn]
    exact hs i

/-- A Decoy special for the C2 counterexample. -/
def decoyW2 : Card :=
  { id := "dc2", name := "Decoy", type := CardType.special, row := CRow.melee, power := 0,
    hero := false, abilities := [Ability.decoy], combat_rows := [], group := none,
    avenged := false, transformed := false }

/-- A unit that sits in no container of c2State. -/
def ghostW : Card := clampUnit "gh" 3

/-- P1 holds the decoy and a pad unit; the board is empty, so the decoy
target is on no row. -/
def c2State : GState :=
  { pstate := fun p =>
      { deck := [],
        hand := if p = Pid.P1 then [decoyW2, clampUnit "pad" 5] else [clampUnit "p2" 1],
        graveyard := [], passed := false, leader_used := false }
    board := Board.init
    hasRound := true
    turn := Pid.P1
    finished := false
    round_number := 1
    wins := fun _ => 0
    lives := fun _ => 2 }

/-- Counterexample to C2 as stated: a Decoy played at a target that is on
no row succeeds (Board.play_card's Decoy branch silently returns), yet
the decoy leaves the hand and ends up on no row, deck, hand or graveyard:
its id count over all containers drops from 1 to 0, so the played card no
longer belongs to any container. -/
theorem C2_decoy_counterexample :
    (c2State.matchPlayCard Pid.P1 decoyW2 none (some ghostW)).1 = Except.ok () ∧
    sCount c2State decoyW2.id = 1 ∧
    sCount (c2State.matchPlayCard Pid.P1 decoyW2 none (some ghostW)).2 decoyW2.id = 0 :=
  ⟨rfl, rfl, rfl⟩

/-- A concrete state for the C2 witness. -/
def wState2 : GState :=
  { pstate := fun p =>
      { deck := [],
        hand := if p = Pid.P1 then [clampUnit "w1" 5] else [clampUnit "w2" 1],
        graveyard := [], passed := false, leader_used := false }
    board := Board.init
    hasRound := true
    turn := Pid.P1
    finished := false
    round_number := 1
    wins := fun _ => 0
    lives := fun _ => 2 }

/-- Witness for C2: the amended theorem applied to a concrete play of a
plain unit from a duplicate-free state. -/
theorem C2_single_owner_amended_witness :
    SingleOwner (wState2.matchPlayCard Pid.P1 (clampUnit "w1" 5) none none).2 ∧
    SingleOwner (wState2.matchPassTurn Pid.P1).2 :=
  C2_single_owner_amended wState2 Pid.P1 (clampUnit "w1" 5) none none
    ((singleOwner_iff_nodup wState2).mpr (by decide))
    (fun t ht => Option.noConfusion ht)

/-! ### Claim C3: statement, counterexample, witness -/

/-- A Decoy special for the C3 theorems. -/
def decoy3 : Card :=
  { id := "dc3", name := "Decoy", type := CardType.special, row := CRow.melee, power := 0,
    hero := false, abilities := [Ability.decoy], combat_rows := [], group := none,
    avenged := false, transformed := false }

/-- P1 holds the decoy and a pad unit. -/
def c3State : GState :=
  { pstate := fun p =>
      { deck := [],
        hand := if p = Pid.P1 then [decoy3, clampUnit "pad3" 5] else [clampUnit "q2" 1],
        graveyard := [], passed := false, leader_used := false }
    board := Board.init
    hasRound := true
    turn := Pid.P1
    finished := false
    round_number := 1
    wins := fun _ => 0
    lives := fun _ => 2 }

/-- Counterexample to C3 as stated: a Decoy played with no target_unit
raises ValueError, but the state is not as it was before the call — the
card has already been removed from the acting player's hand (round.py
removes it before Board.play_card runs, and the exception does not roll
that back). -/
theorem C3_atomicity_counterexample :
    (c3State.matchPlayCard Pid.P1 decoy3 none none).1 =
      Except.error (Err.valueError "Decoy requires target_unit") ∧
    ((c3State.matchPlayCard Pid.P1 decoy3 none none).2.pstate Pid.P1).hand ≠
      (c3State.pstate Pid.P1).hand := by
  refine ⟨rfl, fun h => ?_⟩
  exact absurd h (by decide)

/-- C3, amended.  Errors raised before the hand mutation are atomic: with
no live round, or with a card not in the acting player's hand, the state
is exactly unchanged.  But a Decoy or Mardroeme special played with no
target_unit on a live round errors only after the card left the hand: the
resulting state is exactly the original with the card erased from that
hand (board, decks, graveyards and flags untouched). -/
theorem C3_atomicity_amended (s : GState) (p : Pid) (card : Card) (tr : Option CRow)
    (hw : Ability.weather ∉ card.abilities)
    (hsc : Ability.scorch ∉ card.abilities)
    (hu : card.is_unit = false)
    (hdm : Ability.decoy ∈ card.abilities ∨ Ability.mardroeme ∈ card.abilities) :
    (s.hasRound = false → (s.matchPlayCard p card tr none).2 = s) ∧
    (card ∉ (s.pstate p).hand → (s.matchPlayCard p card tr none).2 = s) ∧
    (s.hasRound = true → card ∈ (s.pstate p).hand →
      (∃ m, (s.matchPlayCard p card tr none).1 = Except.error (Err.valueError m)) ∧
      (s.matchPlayCard p card tr none).2 =
        s.setP p { s.pstate p with hand := (s.pstate p).hand.erase card }) := by
  obtain ⟨msg, hstem⟩ : ∃ msg, ∀ b : Board, b.playCardStem p card tr none =
      { res := Except.error (Err.valueError msg), board := b, fell := false } := by
    by_cases hdec : Ability.decoy ∈ card.abilities
    · refine ⟨"Decoy requires target_unit", fun b => ?_⟩
      unfold Board.playCardStem playCardStemCR
      rw [if_neg hw, if_neg (fun h => hsc h.1), if_pos ⟨hdec, hu⟩]
      rfl
    · have hmar := hdm.resolve_left hdec
      refine ⟨"Mardroeme requires target_unit (typically a Berserker)", fun b => ?_⟩
      unfold Board.playCardStem playCardStemCR
      rw [if_neg hw, if_neg (fun h => hsc h.1), if_neg (fun h => hdec h.1),
        if_pos ⟨hmar, hu⟩]
      rfl
  have hplay : ∀ b : Board, b.play_card p card tr none false =
      (Except.error (Err.valueError msg), b) := by
    intro b
    show Board.playCardAux 1 b p card tr none = _
    unfold Board.playCardAux
    dsimp only
    rw [hstem b]
    rw [if_neg (by simp)]
  refine ⟨?_, ?_, ?_⟩
  · intro h0
    unfold GState.matchPlayCard
    rw [if_neg (by simp [h0])]
  · intro hnot
    unfold GState.matchPlayCard
    by_cases hr : s.hasRound = true
    · rw [if_pos hr]
      unfold GState.roundPlayCard
      rw [if_neg hnot]
    · rw [if_neg hr]
  · intro hr hhand
    have hmain : s.matchPlayCard p card tr none =
        (Except.error (Err.valueError msg),
          s.setP p { s.pstate p with hand := (s.pstate p).hand.erase card }) := by
      unfold GState.matchPlayCard
      rw [if_pos hr]
      unfold GState.roundPlayCard
      rw [if_pos hhand]
      dsimp only
      rw [hplay]
    exact ⟨⟨msg, by rw [hmain]⟩, by rw [hmain]⟩

/-- Witness for C3: the amended theorem at the concrete failing Decoy
play; the resulting state is exactly c3State minus the decoy in hand. -/
theorem C3_atomicity_amended_witness :
    (c3State.matchPlayCard Pid.P1 decoy3 none none).2 =
      c3State.setP Pid.P1 { c3State.pstate Pid.P1 with hand := (c3State.pstate Pid.P1).hand.erase decoy3 } :=
  ((C3_atomicity_amended c3State Pid.P1 decoy3 none (by decide) (by decide) (by decide)
    (Or.inl (by decide))).2.2 rfl (by decide)).2

end Gwent
